import Mathlib

/-!
# termshogi: the engine-analysis coordinator of `main.go`

A shallow embedding of the analysis part of `main.go` (the notation
translator `USIMovesToKIFMoves`, the `AnalysisView`, `View.UpdateView`,
`View.analyze`, the `v` key handler, `readEngineInfo` and the panel
cycling), followed by theorems about it.

`main.go` imports the board/rules library `github.com/eru1a/shogi-go` and its
`engine` package.  Their code is not part of `main.go`, so the embedding takes
them as a parameter (`ShogiLib`): every general theorem holds for whatever
the library computes.  One concrete instance (`Mini.lib`) is given so that the
definitions can be evaluated on real tokens such as `7g7f`.
-/

namespace Termshogi

/-! ## The library interface used by `main.go` -/

/-- The two sides, `shogi.Black` and `shogi.White`. -/
inductive Color where
  | Black
  | White
deriving DecidableEq, Repr

/-- The other side. -/
def opponent : Color → Color
  | Color.Black => Color.White
  | Color.White => Color.Black

/-- The engine states `main.go` switches on (`engine.Initialized` ...). -/
inductive EngineState where
  | Initialized
  | WaitingUSIOk
  | WaitingReadyOk
  | Idling
  | Thinking
deriving DecidableEq, Repr

/-- A command written to the engine by one of the `Send...` methods that
`main.go` calls (`SendUSI`, `SendSetOption`, `SendIsReady`, `SendStop`,
`SendSFEN`, `GoInfinite`). -/
inductive Cmd where
  | usi
  | setOption (name value : String)
  | isReady
  | stop
  | sfen (position : String)
  | goInfinite
deriving DecidableEq, Repr

/-- The fields of `engine.Engine` that `main.go` reads. -/
structure Engine where
  Name : String
  State : EngineState
  ReadyOk : Bool
deriving DecidableEq, Repr

/-- The part of `github.com/eru1a/shogi-go` (and its `engine` package) that
`main.go` calls.  Every field is a function or constant of the library; the
embedding of `main.go` below is written against this interface only. -/
structure ShogiLib where
  /-- The library item `shogi.Position` -/
  Position : Type
  /-- The library item `shogi.Square` -/
  Square : Type
  /-- The library item `shogi.Move` -/
  Move : Type
  /-- The library item `shogi.MoveData` -/
  MoveData : Type
  /-- The library item `shogi.Piece` -/
  Piece : Type
  /-- The library item `shogi.NullSquare` -/
  NullSquare : Square
  /-- The library item `shogi.NO_PIECE` -/
  NO_PIECE : Piece
  /-- The library item `shogi.NewMoveFromUSI`: the move and whether the error is nil. -/
  NewMoveFromUSI : String → Move × Bool
  /-- The field `Move.To` -/
  moveTo : Move → Square
  /-- The library item `shogi.NewMoveData(move, position, before)` -/
  NewMoveData : Move → Position → Square → MoveData
  /-- The field `MoveData.Color` -/
  mdColor : MoveData → Color
  /-- The field `MoveData.To` -/
  mdTo : MoveData → Square
  /-- The field `MoveData.Ply` -/
  mdPly : MoveData → Int
  /-- The library item `MoveData.KIF()` -/
  mdKIF : MoveData → String
  /-- The library item `MoveData.IsInitialMove()` -/
  IsInitialMove : MoveData → Bool
  /-- The library item `Position.Clone()` -/
  Clone : Position → Position
  /-- The library item `Position.Move(move)`: the position after the move, `none` when the
  library returns an error. -/
  applyMove : Position → Move → Option Position
  /-- The field `Position.Turn` -/
  Turn : Position → Color
  /-- The library item `Position.SFEN()` -/
  SFEN : Position → String
  /-- The library item `Position.Get(square)` -/
  Get : Position → Square → Piece
  /-- The library item `Position.HandGet(pieceType, color)`, the count (the error is dropped). -/
  HandGet : Position → Int → Color → Int
  /-- The library item `shogi.NewSquare(file, rank)`, the square (the error is dropped). -/
  NewSquare : Int → Int → Square
  /-- The library item `Square.File()` -/
  sqFile : Square → Int
  /-- The library item `Square.Rank()` -/
  sqRank : Square → Int
  /-- The library item `Square.IsNull()` -/
  sqIsNull : Square → Bool
  /-- The comparison `piece == shogi.NO_PIECE` -/
  isNoPiece : Piece → Bool
  /-- The library item `Piece.Color()` -/
  pieceColor : Piece → Color
  /-- The library item `Piece.PieceType()`; `shogi.PieceType` is an integer type. -/
  pieceType : Piece → Int
  /-- The library item `PieceType.KIF()` -/
  ptKIF : Int → String
  /-- The library item `shogi.FU`, the first piece type kept in hand -/
  FU : Int
  /-- The library item `shogi.HI`, the last piece type kept in hand -/
  HI : Int
  /-- The library item `engine.NewEngine(path)`: the engine, or the error text. -/
  NewEngine : String → Except String Engine
  /-- What a `Send...` call does to the fields `State` and `ReadyOk`. -/
  afterSend : Cmd → Engine → Engine

/-! ## The notation translator (`main.go` lines 283-317) -/

/-- The fields of `engine.USIInfo` that `main.go` reads. -/
structure USIInfo where
  MultiPv : Int
  Time : Int
  Depth : Int
  Nodes : Int
  ScoreCp : Int
  IsMate : Bool
  ScoreMate : Int
  Pv : List String
deriving DecidableEq, Repr

/-- The struct `USIInfoWithKIFPv`: the embedded `engine.USIInfo` and the translated `Pv`. -/
structure USIInfoWithKIFPv where
  USIInfo : USIInfo
  Pv : List String
deriving DecidableEq, Repr

/-- The zero value `USIInfoWithKIFPv{}`. -/
def USIInfoWithKIFPv.zero : USIInfoWithKIFPv :=
  { USIInfo := { MultiPv := 0, Time := 0, Depth := 0, Nodes := 0, ScoreCp := 0,
                 IsMate := false, ScoreMate := 0, Pv := [] },
    Pv := [] }

/-- The side marker put in front of a move: `pre := "☗"`, replaced by `"☖"`
when the colour is `shogi.White`. -/
def sideMark (c : Color) : String :=
  if c = Color.White then "☖" else "☗"

/-- The body of the `for _, usi := range usiMoves` loop of
`USIMovesToKIFMoves`, with the loop variables `p`, `before` and `pv` passed
along.  `return nil, false` is the pair `([], false)`. -/
def USIMovesToKIFMovesLoop (L : ShogiLib) :
    List String → L.Position → L.Square → List String → List String × Bool
  | [], _, _, pv => (pv, true)
  | usi :: rest, p, before, pv =>
    let move := (L.NewMoveFromUSI usi).1
    let moveData := L.NewMoveData move p before
    let pre := sideMark (L.mdColor moveData)
    let pv := pv ++ [pre ++ L.mdKIF moveData]
    let before := L.moveTo move
    match L.applyMove p move with
    | none => ([], false)
    | some p => USIMovesToKIFMovesLoop L rest p before pv

/-- The function `USIMovesToKIFMoves(usiMoves, position, beforeSq)`. -/
def USIMovesToKIFMoves (L : ShogiLib) (usiMoves : List String) (position : L.Position)
    (beforeSq : L.Square) : List String × Bool :=
  USIMovesToKIFMovesLoop L usiMoves (L.Clone position) beforeSq []

/-- The function `NewUSIInfoWithKIFPv(info, p, before)`. -/
def NewUSIInfoWithKIFPv (L : ShogiLib) (info : USIInfo) (p : L.Position) (before : L.Square) :
    USIInfoWithKIFPv × Bool :=
  let (kifmoves, ok) := USIMovesToKIFMoves L info.Pv p before
  if !ok then (USIInfoWithKIFPv.zero, false)
  else ({ USIInfo := info, Pv := kifmoves }, true)


/-! ## The terminal widgets

`main.go` draws through `github.com/rivo/tview`.  Of a `tview.Table` the
embedding keeps the cells that were set and the fixed rows and columns. -/

/-- A `tview.TableCell`: its text and whether its background was set to
`tcell.ColorGreen`. -/
structure TableCell where
  Text : String
  Green : Bool
deriving DecidableEq, Repr

/-- The function `tview.NewTableCell(text)`. -/
def NewTableCell (text : String) : TableCell := ⟨text, false⟩

/-- A `tview.Table`: the cells set so far, by (row, column), and the fixed
rows and columns. -/
structure Table where
  cells : List ((Int × Int) × TableCell)
  fixedRows : Int
  fixedColumns : Int
deriving DecidableEq, Repr

/-- The function `tview.NewTable()`. -/
def NewTable : Table := ⟨[], 0, 0⟩

/-- The method `Table.SetCell(row, column, cell)`: the cell replaces what was
at that place. -/
def Table.SetCell (t : Table) (row col : Int) (cell : TableCell) : Table :=
  { t with cells := ((row, col), cell) :: t.cells.filter fun c => decide (c.1 ≠ (row, col)) }

/-- The method `Table.GetCell(row, column)`. -/
def Table.GetCell (t : Table) (row col : Int) : Option TableCell :=
  (t.cells.find? fun c => decide (c.1 = (row, col))).map Prod.snd

/-- The method `tview.Table.Clear()`: all cells are removed. -/
def Table.Clear (t : Table) : Table := { t with cells := [] }

/-- The method `Table.SetFixed(rows, columns)`. -/
def Table.SetFixed (t : Table) (rows cols : Int) : Table :=
  { t with fixedRows := rows, fixedColumns := cols }

/-- The widgets that take the focus. -/
inductive Primitive where
  | positionView
  | boardView
  | blackHandView
  | whiteHandView
  | movesView
  | analysisView
  | modal
deriving DecidableEq, Repr

/-! ## The analysis table (`main.go` lines 319-384) -/

/-- The struct `AnalysisView`: the embedded table and `Infos`. -/
structure AnalysisView where
  Table : Table
  Infos : List USIInfoWithKIFPv
deriving DecidableEq, Repr

/-- The header row written by `NewAnalysisView` and by `Clear`. -/
def analysisHeader (t : Table) : Table :=
  (((((((t.SetCell 0 0 (NewTableCell "R")).SetCell 0 1 (NewTableCell "時間")).SetCell 0 2
    (NewTableCell "深さ")).SetCell 0 3 (NewTableCell "ノード数")).SetCell 0 4
    (NewTableCell "評価値")).SetCell 0 5 (NewTableCell "読み筋")).SetFixed 1 0)

/-- The function `NewAnalysisView()`; `Infos` is nil. -/
def NewAnalysisView : AnalysisView :=
  { Table := analysisHeader NewTable, Infos := [] }

/-- The method `AnalysisView.Clear()`: the table is cleared, the header row
is written again, and `a.Infos = []USIInfoWithKIFPv{}`. -/
def AnalysisView.Clear (a : AnalysisView) : AnalysisView :=
  { Table := analysisHeader a.Table.Clear, Infos := [] }

/-- The method `AnalysisView.updateOneInfo(row, info)`: the six cells of one
row. -/
def AnalysisView.updateOneInfo (a : AnalysisView) (row : Int) (info : USIInfoWithKIFPv) :
    AnalysisView :=
  let t := a.Table.SetCell row 0 (NewTableCell (toString info.USIInfo.MultiPv))
  let t := t.SetCell row 1 (NewTableCell (toString info.USIInfo.Time))
  let t := t.SetCell row 2 (NewTableCell (toString info.USIInfo.Depth))
  let t := t.SetCell row 3 (NewTableCell (toString info.USIInfo.Nodes))
  let score :=
    if info.USIInfo.IsMate then NewTableCell ("mate " ++ toString info.USIInfo.ScoreMate)
    else NewTableCell (toString info.USIInfo.ScoreCp)
  let t := t.SetCell row 4 score
  let t := t.SetCell row 5 (NewTableCell (" ".intercalate info.Pv))
  { a with Table := t }

/-- The method `AnalysisView.AppendInfo(info, p, before)`. -/
def AnalysisView.AppendInfo (L : ShogiLib) (a : AnalysisView) (info : USIInfo)
    (p : L.Position) (before : L.Square) : AnalysisView :=
  let (infoWithKIFPv, ok) := NewUSIInfoWithKIFPv L info p before
  if !ok then a
  else
    let a := { a with Infos := a.Infos ++ [infoWithKIFPv] }
    a.updateOneInfo a.Infos.length infoWithKIFPv

/-! ## The game tree, the board view and the move list -/

/-- A node of `shogi.GameTree`: its position and the move record stored with
it. -/
structure Node (L : ShogiLib) where
  Position : L.Position
  MoveData : L.MoveData

/-- The `shogi.GameTree` as `main.go` walks it: the nodes are linked by
`Prev` and `Next` in one line from `Root`; `prevs` are the nodes before
`Current`, nearest first (so `Current.Prev` is its head, nil when empty), and
`nexts` the nodes after it. -/
structure GameTree (L : ShogiLib) where
  prevs : List (Node L)
  Current : Node L
  nexts : List (Node L)

/-- The nodes from `Root` along `Next`. -/
def GameTree.nodes {L : ShogiLib} (g : GameTree L) : List (Node L) :=
  g.prevs.reverse ++ g.Current :: g.nexts

/-- The struct `selectFrom`. -/
structure selectFrom (L : ShogiLib) where
  square : L.Square
  piece : L.Piece

/-- The function `newFrom()`. -/
def newFrom (L : ShogiLib) : selectFrom L := ⟨L.NullSquare, L.NO_PIECE⟩

/-- The method `selectFrom.IsNull()`. -/
def selectFrom.IsNull {L : ShogiLib} (f : selectFrom L) : Bool :=
  L.sqIsNull f.square && L.isNoPiece f.piece

/-- The three tables of `PositionView` and the selection `From`. -/
structure PositionView (L : ShogiLib) where
  BoardView : Table
  BlackHandView : Table
  WhiteHandView : Table
  From : selectFrom L

/-- The integers of a Go loop `for i := lo; i <= hi; i++`. -/
def intRange (lo hi : Int) : List Int :=
  (List.range (hi + 1 - lo).toNat).map fun i => lo + i

/-- The board loop of `PositionView.UpdateView`: one cell per rank and
file. -/
def boardCells (L : ShogiLib) (pos : L.Position) (src : selectFrom L) (t : Table) : Table :=
  (intRange 0 8).foldl (fun t rank =>
    (intRange 0 8).foldl (fun t file =>
      let sq := L.NewSquare file rank
      let piece := L.Get pos sq
      let kif := L.ptKIF (L.pieceType piece)
      let kif := if L.pieceColor piece = Color.White then "v" ++ kif else " " ++ kif
      let cell := NewTableCell kif
      let cell :=
        if !src.IsNull && decide (L.sqFile src.square = file) &&
            decide (L.sqRank src.square = rank)
        then { cell with Green := true } else cell
      t.SetCell rank file cell) t) t

/-- A hand loop of `PositionView.UpdateView`: one cell per piece type from
`shogi.FU` to `shogi.HI`. -/
def handCells (L : ShogiLib) (pos : L.Position) (src : selectFrom L) (c : Color) (t : Table) :
    Table :=
  (intRange L.FU L.HI).foldl (fun t pt =>
    let n := L.HandGet pos pt c
    let cell := NewTableCell (L.ptKIF pt ++ toString n)
    let cell :=
      if !src.IsNull && decide (L.pieceColor src.piece = c) &&
          decide (L.pieceType src.piece = pt)
      then { cell with Green := true } else cell
    t.SetCell 0 (pt - 1) cell) t

/-- The method `PositionView.UpdateView()`; the game is the one the view
shares with `View`. -/
def PositionView.UpdateView {L : ShogiLib} (p : PositionView L) (game : GameTree L) :
    PositionView L :=
  { p with
    BoardView := boardCells L game.Current.Position p.From p.BoardView,
    BlackHandView := handCells L game.Current.Position p.From Color.Black p.BlackHandView,
    WhiteHandView := handCells L game.Current.Position p.From Color.White p.WhiteHandView }

/-- The struct `MovesView`: the embedded table and `MoveList`. -/
structure MovesView (L : ShogiLib) where
  Table : Table
  MoveList : List L.MoveData

/-- The text of one row of the move list. -/
def moveRow (L : ShogiLib) (move : L.MoveData) : String :=
  if L.IsInitialMove move then "=== 開始局面 ==="
  else toString (L.mdPly move) ++ " " ++ sideMark (L.mdColor move) ++ L.mdKIF move

/-- The rows written by `MovesView.UpdateView`, from row `i` on. -/
def moveRows (L : ShogiLib) : List L.MoveData → Int → Table → Table
  | [], _, t => t
  | move :: rest, i, t => moveRows L rest (i + 1) (t.SetCell i 0 (NewTableCell (moveRow L move)))

/-- The method `MovesView.UpdateView()`: the move records from `Root` along
`Next`, then one row each. -/
def MovesView.UpdateView {L : ShogiLib} (m : MovesView L) (game : GameTree L) : MovesView L :=
  let moves := game.nodes.map fun node => node.MoveData
  { Table := moveRows L moves 0 m.Table.Clear, MoveList := moves }

/-! ## The view and the coordinator (`main.go` lines 386-581)

This section gives the methods of `View` as functions: what each does when it
runs from its first statement to its last with nothing in between.  What the
program does to the outside is kept in the view: the commands sent to the
engine (`sent`), the log lines (`log`), the number of poll loops started by
`analyze` (`polls`), the number of `readEngineInfo` loops started
(`readers`), and whether an index or nil-pointer fault stopped the program
(`crashed`).  The goroutines and their interleaving follow in the next
section. -/

set_option linter.dupNamespace false in
/-- The struct `Panels`. -/
structure Panels where
  Current : Int
  Panels : List Primitive
deriving DecidableEq, Repr

/-- The struct `Config`. -/
structure Config where
  EnginePath : String
  EngineOptions : List (List String)
deriving DecidableEq, Repr

/-- A key event: `e.Key()` is Tab, Backtab or Enter, or the event carries
the character `e.Rune()`. -/
inductive Key where
  | Tab
  | Backtab
  | Enter
  | Rune (r : Char)
deriving DecidableEq, Repr

/-- The struct `View`, with the focus of the `tview.Application` and the
record of effects. -/
structure View (L : ShogiLib) where
  PositionView : PositionView L
  MovesView : MovesView L
  AnalysisView : AnalysisView
  EngineStateView : String
  Game : GameTree L
  Engine : Option Engine
  Focus : Primitive
  Panels : Panels
  Config : Config
  sent : List Cmd
  log : List String
  polls : Nat
  readers : Nat
  crashed : Bool

/-- A call of one of the engine's `Send...` methods (`GoInfinite` included):
the command is written and the library updates the engine's fields. -/
def View.send {L : ShogiLib} (v : View L) (c : Cmd) : View L :=
  { v with Engine := v.Engine.map (L.afterSend c), sent := v.sent ++ [c] }

/-- A call of `log.Println`. -/
def View.logLine {L : ShogiLib} (v : View L) (line : String) : View L :=
  { v with log := v.log ++ [line] }

/-- The method `View.analyze()`.  The goroutine it starts is counted in
`polls`; its steps are `Sys.pollStep`. -/
def View.analyze {L : ShogiLib} (v : View L) : View L :=
  match v.Engine with
  | none => v
  | some e =>
    let v := if e.State = EngineState.Thinking then (v.send Cmd.stop).logLine "> stop" else v
    { v with polls := v.polls + 1 }

/-- The method `View.UpdateView()`. -/
def View.UpdateView {L : ShogiLib} (v : View L) : View L :=
  let v := { v with PositionView := v.PositionView.UpdateView v.Game }
  let v := { v with MovesView := v.MovesView.UpdateView v.Game }
  let v := { v with AnalysisView := v.AnalysisView.Clear }
  match v.Engine with
  | none => v
  | some e => if e.State = EngineState.Thinking then v.analyze else v

/-- The widget that holds the focus after `App.SetFocus(p)`: the grid of
`PositionView` hands the focus on to the item it was given with the focus
flag (`AddItem(boardView, ..., true)` in `NewPositionView`), the board table;
a table keeps the focus itself. -/
def focusTarget : Primitive → Primitive
  | Primitive.positionView => Primitive.boardView
  | q => q

/-- The call `v.App.SetFocus(v.Panels.Panels[v.Panels.Current])`; an index
out of range stops the program. -/
def View.focusCurrent {L : ShogiLib} (v : View L) : View L :=
  if v.Panels.Current < 0 then { v with crashed := true }
  else
    match v.Panels.Panels.get? v.Panels.Current.toNat with
    | none => { v with crashed := true }
    | some q => { v with Focus := focusTarget q }

/-- The method `View.nextPanel()`.  (`Current` is a Go `int`; below the
length of a slice `Current++` does not overflow.) -/
def View.nextPanel {L : ShogiLib} (v : View L) : View L :=
  let cur := v.Panels.Current + 1
  let cur := if cur ≥ (v.Panels.Panels.length : Int) then 0 else cur
  View.focusCurrent { v with Panels := { v.Panels with Current := cur } }

/-- The method `View.prevPanel()`. -/
def View.prevPanel {L : ShogiLib} (v : View L) : View L :=
  let cur := v.Panels.Current - 1
  let cur := if cur < 0 then (v.Panels.Panels.length : Int) - 1 else cur
  View.focusCurrent { v with Panels := { v.Panels with Current := cur } }

/-- The loop `for _, option := range v.Config.EngineOptions` of the `v` key:
`SendSetOption(option[0], option[1])`; an option with fewer than two strings
stops the program. -/
def View.sendOptions {L : ShogiLib} : List (List String) → View L → View L
  | [], v => v
  | option :: rest, v =>
    match option with
    | name :: value :: _ => View.sendOptions rest (v.send (Cmd.setOption name value))
    | _ => { v with crashed := true }

/-- The `case 'v'` of the input capture set by `View.setup()`: the first
press starts the engine, later presses start or stop the search.  (When
`engine.NewEngine` fails, `v.Engine` is assigned the nil engine returned with
the error.) -/
def View.keyV {L : ShogiLib} (v : View L) : View L :=
  match v.Engine with
  | none =>
    match L.NewEngine v.Config.EnginePath with
    | Except.error err => v.logLine err
    | Except.ok e =>
      let v := { v with Engine := some e, readers := v.readers + 1 }
      let v := v.send Cmd.usi
      let v := View.sendOptions v.Config.EngineOptions v
      if v.crashed then v
      else
        let v := v.send Cmd.isReady
        let v := v.logLine "engine initialized"
        v.analyze
  | some e =>
    match e.State with
    | EngineState.Idling => v.analyze
    | EngineState.Thinking => (v.send Cmd.stop).logLine "> stop"
    | _ => v

/-- The input capture set by `View.setup()`: the view afterwards and the
event passed on (`none` for `return nil`). -/
def View.inputCapture {L : ShogiLib} (v : View L) (e : Key) : View L × Option Key :=
  if (v.Focus = Primitive.boardView ∨ v.Focus = Primitive.blackHandView ∨
      v.Focus = Primitive.whiteHandView) ∧ e = Key.Rune ' ' then (v, some Key.Enter)
  else
    match e with
    | Key.Tab => (v.nextPanel, none)
    | Key.Backtab => (v.prevPanel, none)
    | Key.Rune r => if r = 'v' then (v.keyV, none) else (v, some e)
    | Key.Enter => (v, some e)

/-- The previous-destination square computed inside `readEngineInfo`:
`shogi.NullSquare`, replaced by `v.Game.Current.Prev.MoveData.To` when
`v.Game.Current.Prev != nil`. -/
def View.readEngineInfoBefore {L : ShogiLib} (v : View L) : L.Square :=
  match v.Game.prevs with
  | [] => L.NullSquare
  | prev :: _ => L.mdTo prev.MoveData

/-- The function queued by `readEngineInfo` for one `info` taken from
`EngineInfoC`. -/
def View.readEngineInfo {L : ShogiLib} (v : View L) (info : USIInfo) : View L :=
  let p := v.Game.Current.Position
  let before := v.readEngineInfoBefore
  { v with AnalysisView := v.AnalysisView.AppendInfo L info p before }

/-- The function `NewView(config)`: no engine, the three panels, `Current`
0.  The game is the library's `shogi.NewGameTree()`, passed in; the focus is
the one `Run` sets with `SetRoot`, handed down to the board table. -/
def NewView (L : ShogiLib) (game : GameTree L) (config : Config) : View L :=
  { PositionView := { BoardView := NewTable, BlackHandView := NewTable,
                      WhiteHandView := NewTable, From := newFrom L },
    MovesView := { Table := NewTable, MoveList := [] },
    AnalysisView := NewAnalysisView,
    EngineStateView := "エンジンなし",
    Game := game,
    Engine := none,
    Focus := Primitive.boardView,
    Panels := { Current := 0,
                Panels := [Primitive.positionView, Primitive.movesView, Primitive.analysisView] },
    Config := config,
    sent := [],
    log := [],
    polls := 0,
    readers := 0,
    crashed := false }

/-- The view after the three calls at the head of `View.UpdateView`
(`PositionView.UpdateView`, `MovesView.UpdateView`, `AnalysisView.Clear`),
before the engine is looked at. -/
def View.redrawn {L : ShogiLib} (v : View L) : View L :=
  { v with
    PositionView := v.PositionView.UpdateView v.Game,
    MovesView := v.MovesView.UpdateView v.Game,
    AnalysisView := v.AnalysisView.Clear }

/-! ## The goroutines (`main.go` lines 479-565)

The program runs several goroutines over the fields of `View`.  The event
loop of `tview` runs the handlers, one at a time: the input capture, the
selection callback that ends in `View.UpdateView`, the functions queued by
`readEngineInfo`.  Every call of `analyze` starts one more goroutine with the
poll loop; nothing locks the reads of `v.Engine.State` and `v.Engine.ReadyOk`
or the calls of `SendSFEN` and `GoInfinite` in it.  The reader of the engine
library sets the engine's fields whenever a line arrives.

Below, each goroutine advances by one access to the shared fields at a time (a
read of the engine's fields or of the game, or one `Send...` call), and the
steps of all goroutines interleave in any order. -/

/-- Where one goroutine started by `analyze` stands in its loop
`for range ticker.C` (lines 537-549), together with what it has read since
its last tick. -/
inductive PollPc where
  /-- The loop waits for the next tick (line 541). -/
  | waiting
  /-- The tick came and `v.Engine.State` was read as `state` (line 542, left
  of `&&`). -/
  | stateRead (state : EngineState)
  /-- Then `v.Engine.ReadyOk` was read as `ready` (line 542, right of
  `&&`). -/
  | readyRead (state : EngineState) (ready : Bool)
  /-- The condition held and the argument `v.Game.Current.Position.SFEN()`
  was evaluated to `sfen` (line 543). -/
  | sfenReady (state : EngineState) (ready : Bool) (sfen : String)
  /-- The call `SendSFEN` is done (line 543). -/
  | sentPosition (state : EngineState) (ready : Bool)
  /-- The call `GoInfinite` is done (line 544). -/
  | sentGo (state : EngineState) (ready : Bool)
  /-- The loop is left (`break`, line 546). -/
  | finished
deriving DecidableEq, Repr

/-- Where the event loop stands inside the handler it runs. -/
inductive MainPc where
  /-- No handler runs. -/
  | idle
  /-- In `View.UpdateView` the three redraw calls are done; next the test
  `v.Engine != nil && v.Engine.State == engine.Thinking` (line 406). -/
  | updateGuard
  /-- In the `v` key the engine was created; next `SendUSI` (line 507). -/
  | sendUSI
  /-- Next the loop over the options not yet sent (lines 508-510). -/
  | sendSetOption (rest : List (List String))
  /-- Next `SendIsReady` and the log line (lines 511-512). -/
  | sendIsReady
  /-- Next the call `v.analyze()`: its tests of `v.Engine` and of
  `v.Engine.State` (lines 530-533). -/
  | analyze
  /-- Next `SendStop` and the log line; `thenLoop` tells the call inside
  `analyze` (lines 534-535, the goroutine follows) from the one of the `v`
  key (lines 520-521). -/
  | sendStop (thenLoop : Bool)
  /-- Next `go func()` in `analyze` (line 537). -/
  | startLoop
deriving DecidableEq, Repr

/-- The program as a whole: the view, the place of the event loop, and the
place of every poll loop started so far, in the order they were started. -/
structure Sys (L : ShogiLib) where
  view : View L
  main : MainPc
  loops : List PollPc

/-- The program with no handler running and no poll loop started. -/
def Sys.start {L : ShogiLib} (v : View L) : Sys L :=
  { view := v, main := MainPc.idle, loops := [] }

/-- A fault (nil pointer, index out of range) stops the program. -/
def Sys.crash {L : ShogiLib} (σ : Sys L) : Sys L :=
  { σ with view := { σ.view with crashed := true } }

/-- The poll loop `i` moves to another place. -/
def Sys.setLoop {L : ShogiLib} (σ : Sys L) (i : Nat) (pc : PollPc) : Sys L :=
  { σ with loops := σ.loops.set i pc }

/-- One step of the poll loop `i` (lines 541-547).  Every step is one access
to what the goroutines share: the read of `State`, the read of `ReadyOk`
(only made when `State` was `Idling`), the evaluation of the position's SFEN,
`SendSFEN`, `GoInfinite`, the log line. -/
def Sys.pollStep {L : ShogiLib} (σ : Sys L) (i : Nat) : Sys L :=
  match σ.loops.get? i with
  | none => σ
  | some PollPc.waiting =>
    match σ.view.Engine with
    | none => σ.crash
    | some e => σ.setLoop i (PollPc.stateRead e.State)
  | some (PollPc.stateRead s) =>
    if s = EngineState.Idling then
      match σ.view.Engine with
      | none => σ.crash
      | some e => σ.setLoop i (PollPc.readyRead s e.ReadyOk)
    else σ.setLoop i PollPc.waiting
  | some (PollPc.readyRead s r) =>
    if r then σ.setLoop i (PollPc.sfenReady s r (L.SFEN σ.view.Game.Current.Position))
    else σ.setLoop i PollPc.waiting
  | some (PollPc.sfenReady s r sfen) =>
    match σ.view.Engine with
    | none => σ.crash
    | some _ => Sys.setLoop { σ with view := σ.view.send (Cmd.sfen sfen) } i
        (PollPc.sentPosition s r)
  | some (PollPc.sentPosition s r) =>
    match σ.view.Engine with
    | none => σ.crash
    | some _ => Sys.setLoop { σ with view := σ.view.send Cmd.goInfinite } i (PollPc.sentGo s r)
  | some (PollPc.sentGo _ _) =>
    Sys.setLoop
      { σ with view := σ.view.logLine ("> " ++ L.SFEN σ.view.Game.Current.Position) } i
      PollPc.finished
  | some PollPc.finished => σ

/-- The start of the `case 'v'` of the input capture (lines 496-524), up to
its first call into the engine: with no engine yet, `engine.NewEngine` and
`go v.readEngineInfo()`; with an engine, the read of `v.Engine.State` of the
`switch`. -/
def Sys.keyVStart {L : ShogiLib} (σ : Sys L) : Sys L :=
  match σ.view.Engine with
  | none =>
    match L.NewEngine σ.view.Config.EnginePath with
    | Except.error err => { σ with view := σ.view.logLine err }
    | Except.ok e =>
      { σ with
        view := { σ.view with Engine := some e, readers := σ.view.readers + 1 },
        main := MainPc.sendUSI }
  | some e =>
    match e.State with
    | EngineState.Idling => { σ with main := MainPc.analyze }
    | EngineState.Thinking => { σ with main := MainPc.sendStop false }
    | _ => σ

/-- The start of the input capture for a key (lines 480-526). -/
def Sys.keyStart {L : ShogiLib} (σ : Sys L) (e : Key) : Sys L :=
  if (σ.view.Focus = Primitive.boardView ∨ σ.view.Focus = Primitive.blackHandView ∨
      σ.view.Focus = Primitive.whiteHandView) ∧ e = Key.Rune ' ' then σ
  else
    match e with
    | Key.Tab => { σ with view := σ.view.nextPanel }
    | Key.Backtab => { σ with view := σ.view.prevPanel }
    | Key.Rune r => if r = 'v' then σ.keyVStart else σ
    | Key.Enter => σ

/-- The next step of the handler the event loop is in. -/
def Sys.mainStep {L : ShogiLib} (σ : Sys L) : Sys L :=
  match σ.main with
  | MainPc.idle => σ
  | MainPc.updateGuard =>
    match σ.view.Engine with
    | none => { σ with main := MainPc.idle }
    | some e =>
      if e.State = EngineState.Thinking then { σ with main := MainPc.analyze }
      else { σ with main := MainPc.idle }
  | MainPc.sendUSI =>
    { σ with view := σ.view.send Cmd.usi,
             main := MainPc.sendSetOption σ.view.Config.EngineOptions }
  | MainPc.sendSetOption [] => { σ with main := MainPc.sendIsReady }
  | MainPc.sendSetOption (option :: rest) =>
    match option with
    | name :: value :: _ =>
      { σ with view := σ.view.send (Cmd.setOption name value),
               main := MainPc.sendSetOption rest }
    | _ => σ.crash
  | MainPc.sendIsReady =>
    { σ with view := (σ.view.send Cmd.isReady).logLine "engine initialized",
             main := MainPc.analyze }
  | MainPc.analyze =>
    match σ.view.Engine with
    | none => { σ with main := MainPc.idle }
    | some e =>
      if e.State = EngineState.Thinking then { σ with main := MainPc.sendStop true }
      else { σ with main := MainPc.startLoop }
  | MainPc.sendStop thenLoop =>
    { σ with view := (σ.view.send Cmd.stop).logLine "> stop",
             main := if thenLoop then MainPc.startLoop else MainPc.idle }
  | MainPc.startLoop =>
    { σ with view := { σ.view with polls := σ.view.polls + 1 },
             main := MainPc.idle,
             loops := σ.loops ++ [PollPc.waiting] }

/-- What happens next in the program. -/
inductive Event (L : ShogiLib) where
  /-- A key reaches the input capture. -/
  | key (e : Key)
  /-- The game moved to another position and `View.UpdateView` is called. -/
  | positionChanged (g : GameTree L)
  /-- One analysis line is handed over by `readEngineInfo`. -/
  | info (i : USIInfo)
  /-- The handler in progress takes its next step. -/
  | main
  /-- The poll loop `i` takes its next step. -/
  | poll (i : Nat)
  /-- The engine's reader sets the engine's fields. -/
  | engineReport (e : Engine)

/-- One step of the program.  After a fault nothing happens any more.  A
handler starts only when the event loop is free; `View.UpdateView` starts with
its three redraw calls; an analysis line needs a running `readEngineInfo`, an
engine report an engine. -/
def Sys.step {L : ShogiLib} (σ : Sys L) (ev : Event L) : Sys L :=
  if σ.view.crashed then σ
  else
    match ev with
    | Event.key e => if σ.main = MainPc.idle then σ.keyStart e else σ
    | Event.positionChanged g =>
      if σ.main = MainPc.idle then
        { σ with view := View.redrawn { σ.view with Game := g }, main := MainPc.updateGuard }
      else σ
    | Event.info i =>
      if σ.main = MainPc.idle ∧ σ.view.readers ≠ 0 then
        { σ with view := σ.view.readEngineInfo i }
      else σ
    | Event.main => σ.mainStep
    | Event.poll i => σ.pollStep i
    | Event.engineReport e =>
      if σ.view.Engine.isSome then { σ with view := { σ.view with Engine := some e } } else σ

/-- A run of the program: the events one after the other. -/
def Sys.run {L : ShogiLib} (σ : Sys L) (evs : List (Event L)) : Sys L :=
  evs.foldl Sys.step σ

/-- The event loop runs the handler in progress to its end, with no other
goroutine in between (at most `fuel` steps). -/
def Sys.finishMain {L : ShogiLib} : Nat → Sys L → Sys L
  | 0, σ => σ
  | fuel + 1, σ =>
    if σ.view.crashed ∨ σ.main = MainPc.idle then σ else Sys.finishMain fuel σ.mainStep

/-! ## What the claims speak of

The definitions of this section follow the wording of the specification, to
be compared with the definitions taken from `main.go`. -/

/-- The position reached when the tokens are applied in order, `none` when
one of them fails to apply. -/
def replay (L : ShogiLib) : List String → L.Position → Option L.Position
  | [], p => some p
  | usi :: rest, p =>
    match L.applyMove p (L.NewMoveFromUSI usi).1 with
    | none => none
    | some q => replay L rest q

/-- The display string of one token on a position, given the previous
destination: the marker of the side, then the KIF notation of the move. -/
def displayMove (L : ShogiLib) (usi : String) (p : L.Position) (before : L.Square) : String :=
  sideMark (L.mdColor (L.NewMoveData (L.NewMoveFromUSI usi).1 p before)) ++
    L.mdKIF (L.NewMoveData (L.NewMoveFromUSI usi).1 p before)

/-- The previous destination for the token at index `i` (from 0): the given
square for the first token, the destination of the token before otherwise. -/
def beforeAt (L : ShogiLib) (beforeSq : L.Square) (usiMoves : List String) : Nat → L.Square
  | 0 => beforeSq
  | j + 1 => L.moveTo (L.NewMoveFromUSI (usiMoves.getD j "")).1

/-- The display strings of the tokens, one per token, each computed on the
position after the tokens before it; the list stops after a token that fails
to apply. -/
def displayMoves (L : ShogiLib) : List String → L.Position → L.Square → List String
  | [], _, _ => []
  | usi :: rest, p, before =>
    displayMove L usi p before ::
      match L.applyMove p (L.NewMoveFromUSI usi).1 with
      | none => []
      | some q => displayMoves L rest q (L.moveTo (L.NewMoveFromUSI usi).1)

/-- Whether a command is the position command or the search command. -/
def Cmd.isSearch : Cmd → Bool
  | Cmd.sfen _ => true
  | Cmd.goInfinite => true
  | _ => false

/-- What a poll loop has read since its last tick allows the place it is
in: it read `ReadyOk` only after it read `State` as `Idling`, and it is at or
past the two calls only after it read `ReadyOk` as true as well. -/
def PollPc.guardRead : PollPc → Prop
  | PollPc.readyRead s _ => s = EngineState.Idling
  | PollPc.sfenReady s r _ => s = EngineState.Idling ∧ r = true
  | PollPc.sentPosition s r => s = EngineState.Idling ∧ r = true
  | PollPc.sentGo s r => s = EngineState.Idling ∧ r = true
  | _ => True

/-- Every poll loop of the program is in a place that what it has read
since its last tick allows. -/
def Sys.GuardRead {L : ShogiLib} (σ : Sys L) : Prop :=
  ∀ pc ∈ σ.loops, pc.guardRead

/-- From `v` to `w` commands were at most added to `sent`, and none of the
added ones is the position command or the search command. -/
def Quiet {L : ShogiLib} (v w : View L) : Prop :=
  ∃ cs, w.sent = v.sent ++ cs ∧ ∀ c ∈ cs, Cmd.isSearch c = false

/-! ## A concrete instance of the library interface

The rules below are the usual shogi board, the usual USI move tokens and the
usual KIF notation.  The instance exists so that the translator can be run on
concrete tokens; the general theorems do not depend on it. -/

namespace Mini

/-- Modelled from the spec: the board/rules collaborator
(`github.com/eru1a/shogi-go`), whose code is imported by `main.go` and is not
part of it.  A square in shogi coordinates, file 1-9 and rank 1-9 (a-i); the
null square is file 0, rank 0. -/
structure Square where
  file : Nat
  rank : Nat
deriving DecidableEq, Repr

/-- Modelled from the spec: the collaborator's null square. -/
def NullSquare : Square := ⟨0, 0⟩

/-- Modelled from the spec: whether a square lies on the 9x9 board. -/
def Square.onBoard (s : Square) : Bool :=
  decide (1 ≤ s.file) && decide (s.file ≤ 9) && decide (1 ≤ s.rank) && decide (s.rank ≤ 9)

/-- Modelled from the spec: a piece of the collaborator, its type as the
integer 1 (FU) to 14 (RY) in the order FU KY KE GI KI KA HI OU TO NY NK NG UM
RY, 0 for no piece. -/
structure Piece where
  pt : Nat
  color : Color
deriving DecidableEq, Repr

/-- Modelled from the spec: the value for an empty square. -/
def NO_PIECE : Piece := ⟨0, Color.Black⟩

/-- Modelled from the spec: a move of the collaborator, a board move from
`From` to `To` with or without promotion, or a drop of piece type `Drop`
(0 for a board move) on `To`. -/
structure Move where
  From : Square
  To : Square
  Promote : Bool
  Drop : Nat
deriving DecidableEq, Repr

/-- Modelled from the spec: a position of the collaborator: the 81 squares
row by row (rank 1 first, file 9 first), the two hands (counts of FU KY KE GI
KI KA HI), the side to move and the ply. -/
structure Position where
  board : List Piece
  blackHand : List Nat
  whiteHand : List Nat
  Turn : Color
  Ply : Nat
deriving DecidableEq, Repr

/-- Modelled from the spec: the index of a square in `Position.board`. -/
def Square.index (s : Square) : Nat := (s.rank - 1) * 9 + (9 - s.file)

/-- Modelled from the spec: the collaborator's `Position.Get`. -/
def Position.Get (p : Position) (s : Square) : Piece :=
  if s.onBoard then p.board.getD s.index NO_PIECE else NO_PIECE

/-- Modelled from the spec: one row of the starting position. -/
def backRow (c : Color) : List Piece :=
  [⟨2, c⟩, ⟨3, c⟩, ⟨4, c⟩, ⟨5, c⟩, ⟨8, c⟩, ⟨5, c⟩, ⟨4, c⟩, ⟨3, c⟩, ⟨2, c⟩]

/-- Modelled from the spec: the starting position of a game. -/
def initialPosition : Position :=
  let e := NO_PIECE
  { board :=
      backRow Color.White ++
      [e, ⟨7, Color.White⟩, e, e, e, e, e, ⟨6, Color.White⟩, e] ++
      List.replicate 9 ⟨1, Color.White⟩ ++
      List.replicate 27 e ++
      List.replicate 9 ⟨1, Color.Black⟩ ++
      [e, ⟨6, Color.Black⟩, e, e, e, e, e, ⟨7, Color.Black⟩, e] ++
      backRow Color.Black,
    blackHand := List.replicate 7 0,
    whiteHand := List.replicate 7 0,
    Turn := Color.Black,
    Ply := 0 }

/-- Modelled from the spec: a USI file digit, `1` to `9`. -/
def fileOfChar (c : Char) : Option Nat :=
  if c = '1' then some 1 else if c = '2' then some 2 else if c = '3' then some 3
  else if c = '4' then some 4 else if c = '5' then some 5 else if c = '6' then some 6
  else if c = '7' then some 7 else if c = '8' then some 8 else if c = '9' then some 9
  else none

/-- Modelled from the spec: a USI rank letter, `a` to `i`. -/
def rankOfChar (c : Char) : Option Nat :=
  if c = 'a' then some 1 else if c = 'b' then some 2 else if c = 'c' then some 3
  else if c = 'd' then some 4 else if c = 'e' then some 5 else if c = 'f' then some 6
  else if c = 'g' then some 7 else if c = 'h' then some 8 else if c = 'i' then some 9
  else none

/-- Modelled from the spec: a USI drop letter, `P L N S G B R`. -/
def dropOfChar (c : Char) : Option Nat :=
  if c = 'P' then some 1 else if c = 'L' then some 2 else if c = 'N' then some 3
  else if c = 'S' then some 4 else if c = 'G' then some 5 else if c = 'B' then some 6
  else if c = 'R' then some 7 else none

/-- Modelled from the spec: a square from its two USI characters. -/
def squareOfChars (f r : Char) : Option Square :=
  match fileOfChar f, rankOfChar r with
  | some x, some y => some ⟨x, y⟩
  | _, _ => none

/-- Modelled from the spec: the move a token fails to parse to. -/
def nullMove : Move := ⟨NullSquare, NullSquare, false, 0⟩

/-- Modelled from the spec: the collaborator's parse-a-protocol-move-token:
`7g7f`, `8h2b+` or `P*5e`; the flag is false when the token is none of these. -/
def NewMoveFromUSI (usi : String) : Move × Bool :=
  match usi.data with
  | [a, b, c, d] =>
    if b = '*' then
      match dropOfChar a, squareOfChars c d with
      | some pt, some dst => (⟨NullSquare, dst, false, pt⟩, true)
      | _, _ => (nullMove, false)
    else
      match squareOfChars a b, squareOfChars c d with
      | some src, some dst => (⟨src, dst, false, 0⟩, true)
      | _, _ => (nullMove, false)
  | [a, b, c, d, e] =>
    if e = '+' then
      match squareOfChars a b, squareOfChars c d with
      | some src, some dst => (⟨src, dst, true, 0⟩, true)
      | _, _ => (nullMove, false)
    else (nullMove, false)
  | _ => (nullMove, false)

/-- Modelled from the spec: the single steps of a piece type, as (file,
rank) offsets seen from Black (rank -1 is forward); the collaborator's move
rules are not part of `main.go`. -/
def stepDirs (pt : Nat) : List (Int × Int) :=
  if pt = 1 then [(0, -1)]
  else if pt = 3 then [(-1, -2), (1, -2)]
  else if pt = 4 then [(0, -1), (-1, -1), (1, -1), (-1, 1), (1, 1)]
  else if pt = 5 ∨ (9 ≤ pt ∧ pt ≤ 12) then [(0, -1), (-1, -1), (1, -1), (-1, 0), (1, 0), (0, 1)]
  else if pt = 8 then
    [(0, -1), (-1, -1), (1, -1), (-1, 0), (1, 0), (0, 1), (-1, 1), (1, 1)]
  else if pt = 13 then [(0, -1), (-1, 0), (1, 0), (0, 1)]
  else if pt = 14 then [(-1, -1), (1, -1), (-1, 1), (1, 1)]
  else []

/-- Modelled from the spec: the sliding directions of a piece type (lance,
bishop, rook and the two promoted sliders), seen from Black. -/
def slideDirs (pt : Nat) : List (Int × Int) :=
  if pt = 2 then [(0, -1)]
  else if pt = 6 ∨ pt = 13 then [(-1, -1), (1, -1), (-1, 1), (1, 1)]
  else if pt = 7 ∨ pt = 14 then [(0, -1), (-1, 0), (1, 0), (0, 1)]
  else []

/-- Modelled from the spec: the square at an offset (off the board when a
coordinate leaves 1-9). -/
def Square.offset (s : Square) (dx dy : Int) : Square :=
  ⟨((s.file : Int) + dx).toNat, ((s.rank : Int) + dy).toNat⟩

/-- Modelled from the spec: the squares strictly between `src` and the k-th
square in direction (ux, uy) are empty. -/
def pathClear (p : Position) (src : Square) (ux uy : Int) (k : Nat) : Bool :=
  (List.range k).all fun j =>
    j = 0 || (p.Get (src.offset (j * ux) (j * uy))).pt = 0

/-- Modelled from the spec: whether the piece on `src` moves to `dst` by
its movement rule on this board. -/
def reaches (p : Position) (pc : Piece) (src dst : Square) : Bool :=
  let sgn : Int := if pc.color = Color.Black then 1 else -1
  let dx : Int := (dst.file : Int) - src.file
  let dy : Int := ((dst.rank : Int) - src.rank) * sgn
  (stepDirs pc.pt).contains (dx, dy) ||
  (slideDirs pc.pt).any fun d =>
    (List.range 9).any fun k =>
      decide (1 ≤ k) && decide (dx = k * d.1) && decide (dy = k * d.2) &&
        pathClear p src d.1 (d.2 * sgn) k

/-- Modelled from the spec: whether a rank lies in the promotion zone of a
side (the three farthest ranks). -/
def inZone (c : Color) (rank : Nat) : Bool :=
  if c = Color.Black then decide (rank ≤ 3) else decide (7 ≤ rank)

/-- Modelled from the spec: whether an unpromoted piece of this type could
never move again from this rank (pawn and lance on the last rank, knight on
the last two). -/
def deadRank (pc : Piece) (rank : Nat) : Bool :=
  let r := if pc.color = Color.Black then rank else 10 - rank
  (decide (pc.pt = 1 ∨ pc.pt = 2) && decide (r ≤ 1)) || (decide (pc.pt = 3) && decide (r ≤ 2))

/-- Modelled from the spec: the promoted type of a piece type. -/
def promote (pt : Nat) : Nat :=
  if pt ≤ 4 then pt + 8 else pt + 7

/-- Modelled from the spec: the type a captured piece has in hand. -/
def unpromote (pt : Nat) : Nat :=
  if pt ≤ 8 then pt else if pt ≤ 12 then pt - 8 else pt - 7

/-- Modelled from the spec: the hand of a side. -/
def Position.hand (p : Position) (c : Color) : List Nat :=
  if c = Color.Black then p.blackHand else p.whiteHand

/-- Modelled from the spec: the position with the hand of a side replaced. -/
def Position.setHand (p : Position) (c : Color) (h : List Nat) : Position :=
  if c = Color.Black then { p with blackHand := h } else { p with whiteHand := h }

/-- Modelled from the spec: whether a side has an unpromoted pawn on a file. -/
def pawnOnFile (p : Position) (c : Color) (file : Nat) : Bool :=
  (List.range 9).any fun r => p.Get ⟨file, r + 1⟩ = ⟨1, c⟩

/-- Modelled from the spec: the collaborator's apply-a-move for a board
move: the piece on `From` belongs to the side to move, reaches `To` by its
movement rule, does not capture an own piece, and promotes only where it may;
`none` is the illegal-move error.  (Leaving one's own king in check is not
examined.) -/
def applyBoardMove (p : Position) (m : Move) : Option Position :=
  let pc := p.Get m.From
  let target := p.Get m.To
  if !(m.From.onBoard && m.To.onBoard) then none
  else if pc.pt = 0 ∨ pc.color ≠ p.Turn then none
  else if target.pt ≠ 0 ∧ target.color = p.Turn then none
  else if !(reaches p pc m.From m.To) then none
  else if m.Promote && !(decide (pc.pt ≤ 7 ∧ pc.pt ≠ 5) &&
      (inZone pc.color m.From.rank || inZone pc.color m.To.rank)) then none
  else if !m.Promote && deadRank pc m.To.rank then none
  else
    let placed : Piece := if m.Promote then ⟨promote pc.pt, pc.color⟩ else pc
    let board := (p.board.set m.From.index NO_PIECE).set m.To.index placed
    let q : Position := { p with board := board, Turn := opponent p.Turn, Ply := p.Ply + 1 }
    if target.pt = 0 ∨ target.pt = 8 then some q
    else
      let h := p.hand p.Turn
      let i := unpromote target.pt - 1
      some (q.setHand p.Turn (h.set i (h.getD i 0 + 1)))

/-- Modelled from the spec: the collaborator's apply-a-move for a drop: the
side to move holds the piece, the square is empty, the piece could still move
from there, and a pawn is not dropped on a file that has an own pawn. -/
def applyDrop (p : Position) (m : Move) : Option Position :=
  let h := p.hand p.Turn
  let i := m.Drop - 1
  if !m.To.onBoard then none
  else if 7 < m.Drop ∨ h.getD i 0 = 0 then none
  else if (p.Get m.To).pt ≠ 0 then none
  else if deadRank ⟨m.Drop, p.Turn⟩ m.To.rank then none
  else if m.Drop = 1 ∧ pawnOnFile p p.Turn m.To.file then none
  else
    let board := p.board.set m.To.index ⟨m.Drop, p.Turn⟩
    let q : Position := { p with board := board, Turn := opponent p.Turn, Ply := p.Ply + 1 }
    some (q.setHand p.Turn (h.set i (h.getD i 0 - 1)))

/-- Modelled from the spec: the collaborator's `Position.Move`. -/
def applyMove (p : Position) (m : Move) : Option Position :=
  if m.Drop = 0 then applyBoardMove p m else applyDrop p m

/-- Modelled from the spec: the collaborator's move record
(`shogi.MoveData`), of which `main.go` reads `Color`, `To`, `Ply`, `KIF()` and
`IsInitialMove()`. -/
structure MoveData where
  Move : Move
  Color : Color
  Ply : Nat
  PieceType : Nat
  To : Square
  Same : Bool
  Initial : Bool
deriving DecidableEq, Repr

/-- Modelled from the spec: the move record of the starting position, the
one `IsInitialMove()` holds of. -/
def initialMoveData : MoveData :=
  { Move := nullMove, Color := Color.Black, Ply := 0, PieceType := 0, To := NullSquare,
    Same := false, Initial := true }

/-- Modelled from the spec: the collaborator's
compute-display-notation-for-a-move(position, move, previous destination):
the mover is the side to move, and `Same` records that the move goes to the
previous destination. -/
def NewMoveData (m : Move) (p : Position) (before : Square) : MoveData :=
  { Move := m,
    Color := p.Turn,
    Ply := p.Ply + 1,
    PieceType := if m.Drop = 0 then (p.Get m.From).pt else m.Drop,
    To := m.To,
    Same := decide (m.To = before),
    Initial := false }

/-- Modelled from the spec: a file as KIF writes it. -/
def kifFile (n : Nat) : String :=
  ["", "１", "２", "３", "４", "５", "６", "７", "８", "９"].getD n ""

/-- Modelled from the spec: a rank as KIF writes it. -/
def kifRank (n : Nat) : String :=
  ["", "一", "二", "三", "四", "五", "六", "七", "八", "九"].getD n ""

/-- Modelled from the spec: a coordinate as an ASCII digit. -/
def digit (n : Nat) : String :=
  ["0", "1", "2", "3", "4", "5", "6", "7", "8", "9"].getD n ""

/-- Modelled from the spec: the collaborator's `PieceType.KIF()`. -/
def ptKIF (pt : Nat) : String :=
  ["", "歩", "香", "桂", "銀", "金", "角", "飛", "玉", "と", "成香", "成桂", "成銀", "馬",
   "龍"].getD pt ""

/-- Modelled from the spec: the collaborator's `MoveData.KIF()`, the usual
KIF notation: destination (or `同` for the previous destination), piece,
`成` for a promotion, `打` for a drop, the origin in brackets for a board
move. -/
def MoveData.KIF (d : MoveData) : String :=
  (if d.Same then "同　" else kifFile d.To.file ++ kifRank d.To.rank) ++
  ptKIF d.PieceType ++
  (if d.Move.Promote then "成" else "") ++
  (if d.Move.Drop = 0 then "(" ++ digit d.Move.From.file ++ digit d.Move.From.rank ++ ")"
   else "打")

/-- Modelled from the spec: the SFEN letter of a piece. -/
def sfenPiece (pc : Piece) : String :=
  if pc.color = Color.Black then
    ["", "P", "L", "N", "S", "G", "B", "R", "K", "+P", "+L", "+N", "+S", "+B", "+R"].getD pc.pt ""
  else
    ["", "p", "l", "n", "s", "g", "b", "r", "k", "+p", "+l", "+n", "+s", "+b", "+r"].getD pc.pt ""

/-- Modelled from the spec: one rank of the board in SFEN, runs of empty
squares written as their length. -/
def sfenRow : List Piece → Nat → String
  | [], n => if n = 0 then "" else digit n
  | pc :: rest, n =>
    if pc.pt = 0 then sfenRow rest (n + 1)
    else (if n = 0 then "" else digit n) ++ sfenPiece pc ++ sfenRow rest 0

/-- Modelled from the spec: the board in SFEN, rank by rank. -/
def sfenBoard (board : List Piece) : String :=
  "/".intercalate ((List.range 9).map fun r => sfenRow ((board.drop (r * 9)).take 9) 0)

/-- Modelled from the spec: one hand in SFEN (rook first, pawn last). -/
def sfenHand (c : Color) (h : List Nat) : String :=
  String.join ([7, 6, 5, 4, 3, 2, 1].map fun pt =>
    let n := h.getD (pt - 1) 0
    if n = 0 then "" else (if n = 1 then "" else toString n) ++ sfenPiece ⟨pt, c⟩)

/-- Modelled from the spec: the collaborator's
serialize-position-to-protocol-string. -/
def Position.SFEN (p : Position) : String :=
  let hands := sfenHand Color.Black p.blackHand ++ sfenHand Color.White p.whiteHand
  sfenBoard p.board ++ (if p.Turn = Color.Black then " b " else " w ") ++
    (if hands = "" then "-" else hands) ++ " " ++ toString (p.Ply + 1)

/-- Modelled from the spec: the collaborator's `Position.HandGet`. -/
def Position.HandGet (p : Position) (pt : Int) (c : Color) : Int :=
  if 1 ≤ pt ∧ pt ≤ 7 then ((p.hand c).getD (pt.toNat - 1) 0 : Nat) else 0

/-- Modelled from the spec: the collaborator's `NewSquare(file, rank)` on the
board view's column and row, both counted from 0 (column 0 is file 9). -/
def NewSquare (file rank : Int) : Square :=
  if 0 ≤ file ∧ file ≤ 8 ∧ 0 ≤ rank ∧ rank ≤ 8 then ⟨(9 - file).toNat, (rank + 1).toNat⟩
  else NullSquare

/-- Modelled from the spec: the engine session as created, or the launch
error for an empty path. -/
def NewEngine (path : String) : Except String Engine :=
  if path = "" then Except.error "exec: no command"
  else Except.ok { Name := "", State := EngineState.Initialized, ReadyOk := false }

/-- Modelled from the spec: the sender's rows of the lifecycle table of
section 4.2: the handshake command leaves the first state, the ready-check
leaves `Idling`, the search command leaves `Idling` for `Thinking`; stop and
the other commands change nothing. -/
def afterSend (c : Cmd) (e : Engine) : Engine :=
  match c, e.State with
  | Cmd.usi, EngineState.Initialized => { e with State := EngineState.WaitingUSIOk }
  | Cmd.isReady, EngineState.Idling =>
    { e with State := EngineState.WaitingReadyOk, ReadyOk := false }
  | Cmd.goInfinite, EngineState.Idling => { e with State := EngineState.Thinking }
  | _, _ => e

/-- Modelled from the spec: the board/rules collaborator and the engine
session of `main.go`, as one instance of the interface. -/
@[reducible] def lib : ShogiLib where
  Position := Position
  Square := Square
  Move := Move
  MoveData := MoveData
  Piece := Piece
  NullSquare := NullSquare
  NO_PIECE := NO_PIECE
  NewMoveFromUSI := NewMoveFromUSI
  moveTo := Move.To
  NewMoveData := NewMoveData
  mdColor := MoveData.Color
  mdTo := MoveData.To
  mdPly := fun d => d.Ply
  mdKIF := MoveData.KIF
  IsInitialMove := MoveData.Initial
  Clone := fun p => p
  applyMove := applyMove
  Turn := Position.Turn
  SFEN := Position.SFEN
  Get := Position.Get
  HandGet := Position.HandGet
  NewSquare := NewSquare
  sqFile := fun s => 9 - (s.file : Int)
  sqRank := fun s => (s.rank : Int) - 1
  sqIsNull := fun s => decide (s = NullSquare)
  isNoPiece := fun pc => decide (pc = NO_PIECE)
  pieceColor := Piece.color
  pieceType := fun pc => pc.pt
  ptKIF := fun pt => ptKIF pt.toNat
  FU := 1
  HI := 7
  NewEngine := NewEngine
  afterSend := afterSend

/-- Modelled from the spec: the collaborator's new game tree: one node, the
starting position with the initial move record. -/
def newGame : GameTree lib :=
  { prevs := [], Current := { Position := initialPosition, MoveData := initialMoveData },
    nexts := [] }

/-- Modelled from the spec: the collaborator's `GameTree.Move` for a token:
a legal move adds a node after `Current`, holding the new position and the
record of the move that led to it, and makes it `Current`. -/
def play (g : GameTree lib) (usi : String) : GameTree lib :=
  match applyMove g.Current.Position (NewMoveFromUSI usi).1 with
  | none => g
  | some q =>
    { prevs := g.Current :: g.prevs,
      Current :=
        { Position := q,
          MoveData := NewMoveData (NewMoveFromUSI usi).1 g.Current.Position
            g.Current.MoveData.To },
      nexts := [] }

/-- The configuration of `defaultConfigJSON`. -/
def config : Config :=
  { EnginePath := "/path/to/yaneuraou", EngineOptions := [["Threads", "1"], ["MultiPv", "3"]] }

/-- A view as `NewView` builds it, with an engine session that is `Idling`
and has acknowledged the ready-check. -/
def idleView : View lib :=
  { NewView lib newGame config with
    Engine := some ⟨"engine", EngineState.Idling, true⟩, readers := 1 }

/-- The game after `7g7f`, at its last position. -/
def gameAfterOne : GameTree lib := play newGame "7g7f"

/-- The game after `7g7f 3c3d 8h2b+`, at its last position: the bishop has
just taken on 2b. -/
def gameAfterThree : GameTree lib := play (play (play newGame "7g7f") "3c3d") "8h2b+"

/-- A view of a game, with an engine session that is `Thinking`. -/
def thinkingView (g : GameTree lib) : View lib :=
  { NewView lib g config with
    Engine := some ⟨"engine", EngineState.Thinking, true⟩, readers := 1 }

/-- The `v` key starts the engine and the handler runs to its end (the
first poll loop is started); the engine reports `Idling` with the ready-check
acknowledged; the `v` key is pressed again and starts a second poll loop. -/
def twoLoopsStarted : List (Event lib) :=
  [Event.key (Key.Rune 'v'), Event.main, Event.main, Event.main, Event.main, Event.main,
   Event.main, Event.main,
   Event.engineReport ⟨"engine", EngineState.Idling, true⟩,
   Event.key (Key.Rune 'v'), Event.main, Event.main]

/-- Both poll loops have their tick and read `Idling`, then `ReadyOk`, then
evaluate the position, before either sends anything; then the first loop
sends its two commands. -/
def bothPassThenFirstSends : List (Event lib) :=
  [Event.poll 0, Event.poll 1, Event.poll 0, Event.poll 1, Event.poll 0, Event.poll 1,
   Event.poll 0, Event.poll 0]

/-- An analysis line for the position after `7g7f 3c3d 8h2b+`: the silver
takes back on 2b. -/
def infoRecapture : USIInfo :=
  { MultiPv := 1, Time := 10, Depth := 10, Nodes := 500, ScoreCp := 34, IsMate := false,
    ScoreMate := 0, Pv := ["3a2b"] }

/-- An analysis line for the starting position: variation 1, `pv 7g7f 3c3d`. -/
def infoA : USIInfo :=
  { MultiPv := 1, Time := 10, Depth := 10, Nodes := 500, ScoreCp := 34, IsMate := false,
    ScoreMate := 0, Pv := ["7g7f", "3c3d"] }

/-- A later analysis line for the starting position, again variation 1:
`pv 2g2f 8c8d`. -/
def infoB : USIInfo :=
  { MultiPv := 1, Time := 25, Depth := 11, Nodes := 900, ScoreCp := 41, IsMate := false,
    ScoreMate := 0, Pv := ["2g2f", "8c8d"] }

/-- An analysis line that does not fit the starting position: its second
token moves a piece from an empty square. -/
def infoStale : USIInfo :=
  { MultiPv := 1, Time := 25, Depth := 11, Nodes := 900, ScoreCp := 41, IsMate := false,
    ScoreMate := 0, Pv := ["7g7f", "7g7f"] }

end Mini

/-! ## The translator: lemmas -/

theorem loop_of_replay_some (L : ShogiLib) (usiMoves : List String) :
    ∀ (p : L.Position) (before : L.Square) (pv : List String),
      (replay L usiMoves p).isSome = true →
      USIMovesToKIFMovesLoop L usiMoves p before pv =
        (pv ++ displayMoves L usiMoves p before, true) := by
  induction usiMoves with
  | nil => intro p before pv _; simp [USIMovesToKIFMovesLoop, displayMoves]
  | cons usi rest ih =>
    intro p before pv h
    unfold replay at h
    unfold USIMovesToKIFMovesLoop displayMoves
    cases hm : L.applyMove p (L.NewMoveFromUSI usi).1 with
    | none => simp [hm] at h
    | some q =>
      simp only [hm] at h ⊢
      rw [ih q _ _ h]
      simp [displayMove]

theorem loop_of_replay_none (L : ShogiLib) (usiMoves : List String) :
    ∀ (p : L.Position) (before : L.Square) (pv : List String),
      replay L usiMoves p = none →
      USIMovesToKIFMovesLoop L usiMoves p before pv = ([], false) := by
  induction usiMoves with
  | nil => intro p before pv h; simp [replay] at h
  | cons usi rest ih =>
    intro p before pv h
    unfold replay at h
    unfold USIMovesToKIFMovesLoop
    cases hm : L.applyMove p (L.NewMoveFromUSI usi).1 with
    | none => simp only [hm]
    | some q =>
      simp only [hm] at h ⊢
      exact ih q _ _ h

theorem replay_some_of_ok (L : ShogiLib) (usiMoves : List String) (position : L.Position)
    (beforeSq : L.Square) (h : (USIMovesToKIFMoves L usiMoves position beforeSq).2 = true) :
    (replay L usiMoves (L.Clone position)).isSome = true := by
  cases hr : replay L usiMoves (L.Clone position) with
  | some q => rfl
  | none =>
    rw [USIMovesToKIFMoves, loop_of_replay_none L usiMoves _ _ _ hr] at h
    simp at h

theorem displayMoves_length (L : ShogiLib) (usiMoves : List String) :
    ∀ (p : L.Position) (before : L.Square), (replay L usiMoves p).isSome = true →
      (displayMoves L usiMoves p before).length = usiMoves.length := by
  induction usiMoves with
  | nil => intro p before _; rfl
  | cons usi rest ih =>
    intro p before h
    unfold replay at h
    unfold displayMoves
    cases hm : L.applyMove p (L.NewMoveFromUSI usi).1 with
    | none => simp [hm] at h
    | some q =>
      simp only [hm] at h ⊢
      simp [ih q _ h]

theorem displayMoves_get (L : ShogiLib) (usiMoves : List String) :
    ∀ (p : L.Position) (before : L.Square), (replay L usiMoves p).isSome = true →
      ∀ (i : Nat) (hi : i < usiMoves.length),
        ∃ q, replay L (usiMoves.take i) p = some q ∧
          (displayMoves L usiMoves p before).get? i =
            some (displayMove L (usiMoves.get ⟨i, hi⟩) q (beforeAt L before usiMoves i)) := by
  induction usiMoves with
  | nil => intro p before _ i hi; simp at hi
  | cons usi rest ih =>
    intro p before h i hi
    unfold replay at h
    cases hm : L.applyMove p (L.NewMoveFromUSI usi).1 with
    | none => simp [hm] at h
    | some q =>
      simp only [hm] at h
      cases i with
      | zero => exact ⟨p, by simp [replay], by simp [displayMoves, beforeAt]⟩
      | succ j =>
        have hj : j < rest.length := by simpa using hi
        obtain ⟨r, hr1, hr2⟩ := ih q (L.moveTo (L.NewMoveFromUSI usi).1) h j hj
        refine ⟨r, ?_, ?_⟩
        · simp [replay, hm, hr1]
        · unfold displayMoves
          simp only [hm, List.get?_cons_succ]
          rw [hr2]
          cases j with
          | zero => simp [beforeAt]
          | succ k => simp [beforeAt]

theorem replay_take_none (L : ShogiLib) (usiMoves : List String) :
    ∀ (p : L.Position) (k : Nat), replay L (usiMoves.take k) p = none →
      replay L usiMoves p = none := by
  induction usiMoves with
  | nil => intro p k h; simpa using h
  | cons usi rest ih =>
    intro p k h
    cases k with
    | zero => simp [replay] at h
    | succ j =>
      simp only [List.take_succ_cons] at h
      unfold replay at h ⊢
      cases hm : L.applyMove p (L.NewMoveFromUSI usi).1 with
      | none => rfl
      | some q =>
        simp only [hm] at h ⊢
        exact ih q j h

/-! ## The translator: claims -/

/-- C1: when every token applies legally in order to the position reached by
the tokens before it, `USIMovesToKIFMoves` returns ok = true and one display
string per token, in token order; the string at index i (from 0) is the
display string of token i computed on the position reached by the i tokens
before it, with the previous destination `beforeSq` for the first token and
the destination of the token before otherwise.  (That the tokens parse is not
needed: the source drops the parse error.) -/
theorem USIMovesToKIFMoves_legal (L : ShogiLib) (usiMoves : List String)
    (position : L.Position) (beforeSq : L.Square)
    (hlegal : (replay L usiMoves (L.Clone position)).isSome = true) :
    (USIMovesToKIFMoves L usiMoves position beforeSq).2 = true ∧
    (USIMovesToKIFMoves L usiMoves position beforeSq).1.length = usiMoves.length ∧
    ∀ (i : Nat) (hi : i < usiMoves.length),
      ∃ q, replay L (usiMoves.take i) (L.Clone position) = some q ∧
        (USIMovesToKIFMoves L usiMoves position beforeSq).1.get? i =
          some (displayMove L (usiMoves.get ⟨i, hi⟩) q (beforeAt L beforeSq usiMoves i)) := by
  have hloop := loop_of_replay_some L usiMoves (L.Clone position) beforeSq [] hlegal
  simp only [List.nil_append] at hloop
  refine ⟨?_, ?_, ?_⟩
  · simp [USIMovesToKIFMoves, hloop]
  · simp [USIMovesToKIFMoves, hloop, displayMoves_length L usiMoves _ _ hlegal]
  · intro i hi
    simp only [USIMovesToKIFMoves, hloop]
    exact displayMoves_get L usiMoves _ _ hlegal i hi

/-- C1, at the tokens `7g7f 3c3d 8h2b+ 3a2b` on the starting position. -/
theorem USIMovesToKIFMoves_legal_witness :
    (USIMovesToKIFMoves Mini.lib ["7g7f", "3c3d", "8h2b+", "3a2b"] Mini.initialPosition
        Mini.NullSquare).1 = ["☗７六歩(77)", "☖３四歩(33)", "☗２二角成(88)", "☖同　銀(31)"] ∧
    (USIMovesToKIFMoves Mini.lib ["7g7f", "3c3d", "8h2b+", "3a2b"] Mini.initialPosition
        Mini.NullSquare).2 = true ∧
    (USIMovesToKIFMoves Mini.lib ["7g7f", "3c3d", "8h2b+", "3a2b"] Mini.initialPosition
        Mini.NullSquare).1.length = 4 :=
  ⟨by decide,
   (USIMovesToKIFMoves_legal Mini.lib ["7g7f", "3c3d", "8h2b+", "3a2b"] Mini.initialPosition
      Mini.NullSquare (by decide)).1,
   (USIMovesToKIFMoves_legal Mini.lib ["7g7f", "3c3d", "8h2b+", "3a2b"] Mini.initialPosition
      Mini.NullSquare (by decide)).2.1⟩

/-- C2, as stated, fails: on the starting position the first token of
`7g7f 7g7f` applies and the second does not (k = 2); the display string of
the first move is `☗７六歩(77)`, and `USIMovesToKIFMoves` returns the failure
flag with no string at all. -/
theorem USIMovesToKIFMoves_failure_keeps_nothing :
    (replay Mini.lib ["7g7f"] (Mini.lib.Clone Mini.initialPosition)).isSome = true ∧
    replay Mini.lib ["7g7f", "7g7f"] (Mini.lib.Clone Mini.initialPosition) = none ∧
    (USIMovesToKIFMoves Mini.lib ["7g7f"] Mini.initialPosition Mini.NullSquare).1 =
      ["☗７六歩(77)"] ∧
    USIMovesToKIFMoves Mini.lib ["7g7f", "7g7f"] Mini.initialPosition Mini.NullSquare =
      ([], false) ∧
    USIMovesToKIFMoves Mini.lib ["7g7f", "7g7f"] Mini.initialPosition Mini.NullSquare ≠
      ((USIMovesToKIFMoves Mini.lib (["7g7f", "7g7f"].take (2 - 1)) Mini.initialPosition
          Mini.NullSquare).1, false) := by
  decide

/-- C2, amended: when the first k-1 tokens apply legally in order and the
k-th token fails to apply to the replayed position, `USIMovesToKIFMoves`
returns the failure flag together with the empty list (`return nil, false`):
none of the display strings computed so far is returned. -/
theorem USIMovesToKIFMoves_illegal (L : ShogiLib) (usiMoves : List String)
    (position : L.Position) (beforeSq : L.Square) (k : Nat)
    (_hfirst : (replay L (usiMoves.take (k - 1)) (L.Clone position)).isSome = true)
    (hkth : replay L (usiMoves.take k) (L.Clone position) = none) :
    USIMovesToKIFMoves L usiMoves position beforeSq = ([], false) := by
  unfold USIMovesToKIFMoves
  exact loop_of_replay_none L usiMoves _ _ _ (replay_take_none L usiMoves _ k hkth)

/-- C2, amended, at the tokens `7g7f 7g7f` on the starting position (k = 2). -/
theorem USIMovesToKIFMoves_illegal_witness :
    USIMovesToKIFMoves Mini.lib ["7g7f", "7g7f"] Mini.initialPosition Mini.NullSquare =
      ([], false) :=
  USIMovesToKIFMoves_illegal Mini.lib ["7g7f", "7g7f"] Mini.initialPosition Mini.NullSquare 2
    (by decide) (by decide)

theorem replay_take_succ (L : ShogiLib) (usiMoves : List String) :
    ∀ (p : L.Position) (i : Nat) (hi : i < usiMoves.length),
      replay L (usiMoves.take (i + 1)) p =
        (replay L (usiMoves.take i) p).bind fun q =>
          L.applyMove q (L.NewMoveFromUSI (usiMoves.get ⟨i, hi⟩)).1 := by
  induction usiMoves with
  | nil => intro p i hi; simp at hi
  | cons usi rest ih =>
    intro p i hi
    cases i with
    | zero =>
      simp only [List.take_succ_cons, List.take_zero, replay]
      cases hm : L.applyMove p (L.NewMoveFromUSI usi).1 <;> simp [hm]
    | succ j =>
      have hj : j < rest.length := by simpa using hi
      simp only [List.take_succ_cons, replay]
      cases hm : L.applyMove p (L.NewMoveFromUSI usi).1 with
      | none => simp
      | some q => simpa using ih q j hj

theorem Mini.setHand_turn (p : Mini.Position) (c : Color) (h : List Nat) :
    (p.setHand c h).Turn = p.Turn := by
  unfold Mini.Position.setHand
  split <;> rfl

theorem Mini.applyBoardMove_turn (p q : Mini.Position) (m : Mini.Move)
    (h : Mini.applyBoardMove p m = some q) : q.Turn = opponent p.Turn := by
  unfold Mini.applyBoardMove at h
  dsimp only at h
  split_ifs at h
  all_goals cases h
  all_goals first | rfl | exact Mini.setHand_turn _ _ _

theorem Mini.applyDrop_turn (p q : Mini.Position) (m : Mini.Move)
    (h : Mini.applyDrop p m = some q) : q.Turn = opponent p.Turn := by
  unfold Mini.applyDrop at h
  dsimp only at h
  split_ifs at h
  all_goals cases h
  all_goals first | rfl | exact Mini.setHand_turn _ _ _

theorem Mini.applyMove_turn (p : Mini.Position) (m : Mini.Move) (q : Mini.Position)
    (h : Mini.applyMove p m = some q) : q.Turn = opponent p.Turn := by
  unfold Mini.applyMove at h
  split_ifs at h
  · exact Mini.applyBoardMove_turn p q m h
  · exact Mini.applyDrop_turn p q m h

/-- C9: for a token list that translates successfully, under the library
contract that a move record carries the side to move of the position it is
computed on and that an applied move hands the turn to the other side: there
is one display string per token, each begins with the marker of the side to
move in the replayed position (☗ for Black, ☖ for White), and consecutive
strings carry the markers of opposite sides. -/
theorem USIMovesToKIFMoves_side_marks (L : ShogiLib) (usiMoves : List String)
    (position : L.Position) (beforeSq : L.Square)
    (hcolor : ∀ m p b, L.mdColor (L.NewMoveData m p b) = L.Turn p)
    (hturn : ∀ p m q, L.applyMove p m = some q → L.Turn q = opponent (L.Turn p))
    (hok : (USIMovesToKIFMoves L usiMoves position beforeSq).2 = true) :
    (USIMovesToKIFMoves L usiMoves position beforeSq).1.length = usiMoves.length ∧
    (∀ i, i < usiMoves.length →
      ∃ q kif, replay L (usiMoves.take i) (L.Clone position) = some q ∧
        (USIMovesToKIFMoves L usiMoves position beforeSq).1.get? i =
          some (sideMark (L.Turn q) ++ kif)) ∧
    (∀ i, i + 1 < usiMoves.length →
      ∃ c kif kif',
        (USIMovesToKIFMoves L usiMoves position beforeSq).1.get? i =
          some (sideMark c ++ kif) ∧
        (USIMovesToKIFMoves L usiMoves position beforeSq).1.get? (i + 1) =
          some (sideMark (opponent c) ++ kif')) := by
  have hlegal := replay_some_of_ok L usiMoves position beforeSq hok
  have hloop := loop_of_replay_some L usiMoves (L.Clone position) beforeSq [] hlegal
  simp only [List.nil_append] at hloop
  have hmark : ∀ i, i < usiMoves.length →
      ∃ q kif, replay L (usiMoves.take i) (L.Clone position) = some q ∧
        (USIMovesToKIFMoves L usiMoves position beforeSq).1.get? i =
          some (sideMark (L.Turn q) ++ kif) := by
    intro i hi
    obtain ⟨q, hq1, hq2⟩ := displayMoves_get L usiMoves _ beforeSq hlegal i hi
    refine ⟨q, L.mdKIF (L.NewMoveData (L.NewMoveFromUSI (usiMoves.get ⟨i, hi⟩)).1 q
      (beforeAt L beforeSq usiMoves i)), hq1, ?_⟩
    simp only [USIMovesToKIFMoves, hloop]
    rw [hq2, displayMove, hcolor]
  refine ⟨?_, hmark, ?_⟩
  · simp [USIMovesToKIFMoves, hloop, displayMoves_length L usiMoves _ _ hlegal]
  · intro i hi
    obtain ⟨q, kif, hq1, hq2⟩ := hmark i (by omega)
    obtain ⟨r, kif', hr1, hr2⟩ := hmark (i + 1) hi
    refine ⟨L.Turn q, kif, kif', hq2, ?_⟩
    rw [replay_take_succ L usiMoves _ i (by omega), hq1] at hr1
    rw [hr2, hturn q _ r hr1]

/-- C9, at the scenario of the specification: the tokens `7g7f 3c3d` on the
starting position give two display strings, the first marked ☗ and the
second marked ☖. -/
theorem USIMovesToKIFMoves_side_marks_witness :
    USIMovesToKIFMoves Mini.lib ["7g7f", "3c3d"] Mini.initialPosition Mini.NullSquare =
      (["☗" ++ "７六歩(77)", "☖" ++ "３四歩(33)"], true) ∧
    (USIMovesToKIFMoves Mini.lib ["7g7f", "3c3d"] Mini.initialPosition
      Mini.NullSquare).1.length = 2 ∧
    ∃ c kif kif',
      (USIMovesToKIFMoves Mini.lib ["7g7f", "3c3d"] Mini.initialPosition
        Mini.NullSquare).1.get? 0 = some (sideMark c ++ kif) ∧
      (USIMovesToKIFMoves Mini.lib ["7g7f", "3c3d"] Mini.initialPosition
        Mini.NullSquare).1.get? (0 + 1) = some (sideMark (opponent c) ++ kif') :=
  ⟨by decide,
   (USIMovesToKIFMoves_side_marks Mini.lib ["7g7f", "3c3d"] Mini.initialPosition Mini.NullSquare
      (fun _ _ _ => rfl) Mini.applyMove_turn (by decide)).1,
   (USIMovesToKIFMoves_side_marks Mini.lib ["7g7f", "3c3d"] Mini.initialPosition Mini.NullSquare
      (fun _ _ _ => rfl) Mini.applyMove_turn (by decide)).2.2 0 (by decide)⟩

/-! ## The analysis table: lemmas -/

theorem NewUSIInfoWithKIFPv_ok (L : ShogiLib) (info : USIInfo) (p : L.Position)
    (before : L.Square) (h : (USIMovesToKIFMoves L info.Pv p before).2 = true) :
    NewUSIInfoWithKIFPv L info p before =
      ({ USIInfo := info, Pv := (USIMovesToKIFMoves L info.Pv p before).1 }, true) := by
  unfold NewUSIInfoWithKIFPv
  cases hr : USIMovesToKIFMoves L info.Pv p before with
  | mk kifmoves ok =>
    rw [hr] at h
    simp only at h
    subst h
    rfl

theorem NewUSIInfoWithKIFPv_failed (L : ShogiLib) (info : USIInfo) (p : L.Position)
    (before : L.Square) (h : (USIMovesToKIFMoves L info.Pv p before).2 = false) :
    NewUSIInfoWithKIFPv L info p before = (USIInfoWithKIFPv.zero, false) := by
  unfold NewUSIInfoWithKIFPv
  cases hr : USIMovesToKIFMoves L info.Pv p before with
  | mk kifmoves ok =>
    rw [hr] at h
    simp only at h
    subst h
    rfl

theorem updateOneInfo_Infos (a : AnalysisView) (row : Int) (info : USIInfoWithKIFPv) :
    (a.updateOneInfo row info).Infos = a.Infos := rfl

theorem AppendInfo_Infos_ok (L : ShogiLib) (a : AnalysisView) (info : USIInfo)
    (p : L.Position) (before : L.Square)
    (h : (USIMovesToKIFMoves L info.Pv p before).2 = true) :
    (a.AppendInfo L info p before).Infos =
      a.Infos ++ [{ USIInfo := info, Pv := (USIMovesToKIFMoves L info.Pv p before).1 }] := by
  unfold AnalysisView.AppendInfo
  rw [NewUSIInfoWithKIFPv_ok L info p before h]
  rfl

/-! ## The analysis table: claims -/

/-- C3, as stated, fails: two analysis lines for the starting position, both
of variation 1 and both translating successfully, are appended after one
`Clear`; `Infos` then holds two entries, the earlier line first, not the
later one alone. -/
theorem AppendInfo_same_index_keeps_both :
    (USIMovesToKIFMoves Mini.lib Mini.infoA.Pv Mini.initialPosition Mini.NullSquare).2 = true ∧
    (USIMovesToKIFMoves Mini.lib Mini.infoB.Pv Mini.initialPosition Mini.NullSquare).2 = true ∧
    Mini.infoA.MultiPv = Mini.infoB.MultiPv ∧
    ((NewAnalysisView.Clear.AppendInfo Mini.lib Mini.infoA Mini.initialPosition
        Mini.NullSquare).AppendInfo Mini.lib Mini.infoB Mini.initialPosition
        Mini.NullSquare).Infos =
      [{ USIInfo := Mini.infoA, Pv := ["☗７六歩(77)", "☖３四歩(33)"] },
       { USIInfo := Mini.infoB, Pv := ["☗２六歩(27)", "☖８四歩(83)"] }] ∧
    ((NewAnalysisView.Clear.AppendInfo Mini.lib Mini.infoA Mini.initialPosition
        Mini.NullSquare).AppendInfo Mini.lib Mini.infoB Mini.initialPosition
        Mini.NullSquare).Infos ≠
      [{ USIInfo := Mini.infoB, Pv := ["☗２六歩(27)", "☖８四歩(83)"] }] := by
  decide

/-- C3, amended: for every two info events that both translate successfully
and are appended with `AnalysisView.AppendInfo` after the same `Clear`,
`Infos` afterwards holds both, the earlier first, whether their MultiPv
indices are equal or different: `AppendInfo` appends and overwrites nothing. -/
theorem AppendInfo_twice (L : ShogiLib) (a : AnalysisView) (info1 info2 : USIInfo)
    (p1 p2 : L.Position) (before1 before2 : L.Square)
    (h1 : (USIMovesToKIFMoves L info1.Pv p1 before1).2 = true)
    (h2 : (USIMovesToKIFMoves L info2.Pv p2 before2).2 = true) :
    ((a.Clear.AppendInfo L info1 p1 before1).AppendInfo L info2 p2 before2).Infos =
      [{ USIInfo := info1, Pv := (USIMovesToKIFMoves L info1.Pv p1 before1).1 },
       { USIInfo := info2, Pv := (USIMovesToKIFMoves L info2.Pv p2 before2).1 }] := by
  rw [AppendInfo_Infos_ok L _ info2 p2 before2 h2, AppendInfo_Infos_ok L _ info1 p1 before1 h1]
  rfl

/-- C3, amended, at two lines of variation 1 for the starting position. -/
theorem AppendInfo_twice_witness :
    ((NewAnalysisView.Clear.AppendInfo Mini.lib Mini.infoA Mini.initialPosition
        Mini.NullSquare).AppendInfo Mini.lib Mini.infoB Mini.initialPosition
        Mini.NullSquare).Infos =
      [{ USIInfo := Mini.infoA,
         Pv := (USIMovesToKIFMoves Mini.lib Mini.infoA.Pv Mini.initialPosition
                 Mini.NullSquare).1 },
       { USIInfo := Mini.infoB,
         Pv := (USIMovesToKIFMoves Mini.lib Mini.infoB.Pv Mini.initialPosition
                 Mini.NullSquare).1 }] :=
  AppendInfo_twice Mini.lib NewAnalysisView Mini.infoA Mini.infoB Mini.initialPosition
    Mini.initialPosition Mini.NullSquare Mini.NullSquare (by decide) (by decide)

/-- C4: when the translation of `info.Pv` fails, `AppendInfo` leaves the
`AnalysisView` exactly as it was, `Infos` and table alike (no row is
written), and `NewUSIInfoWithKIFPv` returns the zero value with ok = false. -/
theorem AppendInfo_failed (L : ShogiLib) (a : AnalysisView) (info : USIInfo)
    (p : L.Position) (before : L.Square)
    (h : (USIMovesToKIFMoves L info.Pv p before).2 = false) :
    a.AppendInfo L info p before = a ∧
    (a.AppendInfo L info p before).Infos = a.Infos ∧
    (a.AppendInfo L info p before).Table = a.Table ∧
    NewUSIInfoWithKIFPv L info p before = (USIInfoWithKIFPv.zero, false) := by
  have hnew := NewUSIInfoWithKIFPv_failed L info p before h
  have ha : a.AppendInfo L info p before = a := by
    unfold AnalysisView.AppendInfo
    rw [hnew]
    rfl
  exact ⟨ha, by rw [ha], by rw [ha], hnew⟩

/-- C4, at a line whose second token does not fit the starting position,
appended to a view that already holds one line. -/
theorem AppendInfo_failed_witness :
    (USIMovesToKIFMoves Mini.lib Mini.infoStale.Pv Mini.initialPosition Mini.NullSquare).2 =
      false ∧
    ((NewAnalysisView.AppendInfo Mini.lib Mini.infoA Mini.initialPosition
        Mini.NullSquare).AppendInfo Mini.lib Mini.infoStale Mini.initialPosition
        Mini.NullSquare) =
      NewAnalysisView.AppendInfo Mini.lib Mini.infoA Mini.initialPosition Mini.NullSquare ∧
    NewUSIInfoWithKIFPv Mini.lib Mini.infoStale Mini.initialPosition Mini.NullSquare =
      (USIInfoWithKIFPv.zero, false) :=
  ⟨by decide,
   (AppendInfo_failed Mini.lib
      (NewAnalysisView.AppendInfo Mini.lib Mini.infoA Mini.initialPosition Mini.NullSquare)
      Mini.infoStale Mini.initialPosition Mini.NullSquare (by decide)).1,
   (AppendInfo_failed Mini.lib
      (NewAnalysisView.AppendInfo Mini.lib Mini.infoA Mini.initialPosition Mini.NullSquare)
      Mini.infoStale Mini.initialPosition Mini.NullSquare (by decide)).2.2.2⟩

/-- C5: `AnalysisView.Clear` leaves `Infos` empty, and `View.UpdateView`
performs that `Clear` on every call, whatever the engine is (absent, or in
any state): afterwards the `AnalysisView` is the cleared one and `Infos`
holds nothing that was appended before. -/
theorem UpdateView_clears_Infos (L : ShogiLib) (a : AnalysisView) (v : View L) :
    a.Clear.Infos = [] ∧
    v.UpdateView.AnalysisView = v.AnalysisView.Clear ∧
    v.UpdateView.AnalysisView.Infos = [] := by
  have h : v.UpdateView.AnalysisView = v.AnalysisView.Clear := by
    unfold View.UpdateView
    dsimp only
    cases hE : v.Engine with
    | none => rfl
    | some e =>
      dsimp only
      split
      · unfold View.analyze
        dsimp only [hE]
        split <;> rfl
      · rfl
  exact ⟨rfl, h, by rw [h]; rfl⟩

/-! ## Panel cycling -/

theorem focusCurrent_Panels {L : ShogiLib} (v : View L) :
    (View.focusCurrent v).Panels = v.Panels := by
  unfold View.focusCurrent
  split
  · rfl
  · split <;> rfl

theorem focusCurrent_crashed {L : ShogiLib} (v : View L) (h0 : 0 ≤ v.Panels.Current)
    (h1 : v.Panels.Current < v.Panels.Panels.length) :
    (View.focusCurrent v).crashed = v.crashed := by
  unfold View.focusCurrent
  rw [if_neg (by omega)]
  have hlt : v.Panels.Current.toNat < v.Panels.Panels.length := by omega
  rw [List.get?_eq_get hlt]

theorem nextPanel_Current {L : ShogiLib} (v : View L) :
    v.nextPanel.Panels.Current =
      if v.Panels.Current + 1 ≥ (v.Panels.Panels.length : Int) then 0
      else v.Panels.Current + 1 := by
  unfold View.nextPanel
  rw [focusCurrent_Panels]

theorem nextPanel_list {L : ShogiLib} (v : View L) :
    v.nextPanel.Panels.Panels = v.Panels.Panels := by
  unfold View.nextPanel
  rw [focusCurrent_Panels]

theorem prevPanel_Current {L : ShogiLib} (v : View L) :
    v.prevPanel.Panels.Current =
      if v.Panels.Current - 1 < 0 then (v.Panels.Panels.length : Int) - 1
      else v.Panels.Current - 1 := by
  unfold View.prevPanel
  rw [focusCurrent_Panels]

theorem prevPanel_list {L : ShogiLib} (v : View L) :
    v.prevPanel.Panels.Panels = v.Panels.Panels := by
  unfold View.prevPanel
  rw [focusCurrent_Panels]

/-- C10: for a view whose `Current` lies in [0, len(Panels)), `nextPanel`
and `prevPanel` leave `Current` in that range, wrapping from the last panel
to 0 and from 0 to the last panel, they index the panel list without fault,
and each undoes the other: `nextPanel` then `prevPanel`, and `prevPanel` then
`nextPanel`, restore the original `Current`. -/
theorem nextPanel_prevPanel_inverse (L : ShogiLib) (v : View L)
    (h0 : 0 ≤ v.Panels.Current)
    (h1 : v.Panels.Current < (v.Panels.Panels.length : Int)) :
    (0 ≤ v.nextPanel.Panels.Current ∧
      v.nextPanel.Panels.Current < (v.Panels.Panels.length : Int)) ∧
    (0 ≤ v.prevPanel.Panels.Current ∧
      v.prevPanel.Panels.Current < (v.Panels.Panels.length : Int)) ∧
    (v.Panels.Current = (v.Panels.Panels.length : Int) - 1 → v.nextPanel.Panels.Current = 0) ∧
    (v.Panels.Current = 0 →
      v.prevPanel.Panels.Current = (v.Panels.Panels.length : Int) - 1) ∧
    v.nextPanel.prevPanel.Panels.Current = v.Panels.Current ∧
    v.prevPanel.nextPanel.Panels.Current = v.Panels.Current ∧
    v.nextPanel.crashed = v.crashed ∧ v.prevPanel.crashed = v.crashed := by
  have hn := nextPanel_Current v
  have hp := prevPanel_Current v
  have hnp := prevPanel_Current v.nextPanel
  have hpn := nextPanel_Current v.prevPanel
  rw [nextPanel_list] at hnp
  rw [prevPanel_list] at hpn
  have hcn : v.nextPanel.crashed = v.crashed := by
    unfold View.nextPanel
    rw [focusCurrent_crashed]
    · dsimp only
      split <;> omega
    · dsimp only
      split <;> omega
  have hcp : v.prevPanel.crashed = v.crashed := by
    unfold View.prevPanel
    rw [focusCurrent_crashed]
    · dsimp only
      split <;> omega
    · dsimp only
      split <;> omega
  refine ⟨?_, ?_, ?_, ?_, ?_, ?_, hcn, hcp⟩
  · rw [hn]; split <;> omega
  · rw [hp]; split <;> omega
  · intro h; rw [hn]; split <;> omega
  · intro h; rw [hp]; split <;> omega
  · rw [hnp, hn]; split <;> split <;> omega
  · rw [hpn, hp]; split <;> split <;> omega

/-- C10, at the view `NewView` builds: three panels, `Current` 0. -/
theorem nextPanel_prevPanel_inverse_witness :
    (NewView Mini.lib Mini.newGame Mini.config).nextPanel.Panels.Current = 1 ∧
    (NewView Mini.lib Mini.newGame Mini.config).prevPanel.Panels.Current = 2 ∧
    (NewView Mini.lib Mini.newGame Mini.config).nextPanel.prevPanel.Panels.Current =
      (NewView Mini.lib Mini.newGame Mini.config).Panels.Current ∧
    (NewView Mini.lib Mini.newGame Mini.config).prevPanel.nextPanel.Panels.Current =
      (NewView Mini.lib Mini.newGame Mini.config).Panels.Current :=
  ⟨by decide, by decide,
   (nextPanel_prevPanel_inverse Mini.lib (NewView Mini.lib Mini.newGame Mini.config)
      (by decide) (by decide)).2.2.2.2.1,
   (nextPanel_prevPanel_inverse Mini.lib (NewView Mini.lib Mini.newGame Mini.config)
      (by decide) (by decide)).2.2.2.2.2.1⟩

/-! ## The coordinator -/

/-- C7, as stated, fails: a view with an engine that is `Idling` gets a
position change; `View.UpdateView` starts no poll loop and sends nothing,
where a call of `View.analyze` would have started one. -/
theorem UpdateView_idle_engine_not_resumed :
    Mini.idleView.Engine = some ⟨"engine", EngineState.Idling, true⟩ ∧
    Mini.idleView.UpdateView.polls = Mini.idleView.polls ∧
    Mini.idleView.UpdateView.sent = Mini.idleView.sent ∧
    Mini.idleView.analyze.polls = Mini.idleView.polls + 1 ∧
    Mini.idleView.UpdateView.polls ≠ Mini.idleView.analyze.polls := by
  decide

/-- C7, amended: a board-position change (`View.UpdateView`) calls
`View.analyze` exactly when `Engine` is non-nil and its state is `Thinking`:
then the result is `analyze` run on the redrawn view, the stop command is
sent and one poll loop is started; when `Engine` is non-nil in any other
state, or nil, the result is the redrawn view alone, nothing is sent and no
poll loop is started. -/
theorem UpdateView_resumes_iff_thinking (L : ShogiLib) (v : View L) :
    (∀ e, v.Engine = some e → e.State = EngineState.Thinking →
      v.UpdateView = v.redrawn.analyze ∧ v.UpdateView.polls = v.polls + 1 ∧
        v.UpdateView.sent = v.sent ++ [Cmd.stop]) ∧
    (∀ e, v.Engine = some e → e.State ≠ EngineState.Thinking →
      v.UpdateView = v.redrawn ∧ v.UpdateView.polls = v.polls ∧ v.UpdateView.sent = v.sent) ∧
    (v.Engine = none →
      v.UpdateView = v.redrawn ∧ v.UpdateView.polls = v.polls ∧ v.UpdateView.sent = v.sent) ∧
    (∀ e, v.Engine = some e → v.redrawn.analyze.polls = v.polls + 1) := by
  refine ⟨?_, ?_, ?_, ?_⟩
  · intro e hE hT
    have h : v.UpdateView = v.redrawn.analyze := by
      unfold View.UpdateView View.redrawn
      simp only [hE, hT, if_true]
    refine ⟨h, ?_, ?_⟩
    · rw [h]; unfold View.analyze View.redrawn; simp [hE, hT, View.send, View.logLine]
    · rw [h]; unfold View.analyze View.redrawn; simp [hE, hT, View.send, View.logLine]
  · intro e hE hT
    have h : v.UpdateView = v.redrawn := by
      unfold View.UpdateView View.redrawn
      simp only [hE, hT, if_false]
    exact ⟨h, by rw [h]; rfl, by rw [h]; rfl⟩
  · intro hE
    have h : v.UpdateView = v.redrawn := by
      unfold View.UpdateView View.redrawn
      simp only [hE]
    exact ⟨h, by rw [h]; rfl, by rw [h]; rfl⟩
  · intro e hE
    unfold View.analyze View.redrawn
    simp only [hE]
    split <;> rfl

theorem Quiet.of_sent_eq {L : ShogiLib} {v w : View L} (h : w.sent = v.sent) : Quiet v w :=
  ⟨[], by simp [h], by simp⟩

theorem Quiet.trans {L : ShogiLib} {u v w : View L} (h1 : Quiet u v) (h2 : Quiet v w) :
    Quiet u w := by
  obtain ⟨cs, hcs, hq⟩ := h1
  obtain ⟨ds, hds, hr⟩ := h2
  refine ⟨cs ++ ds, by rw [hds, hcs, List.append_assoc], ?_⟩
  intro c hc
  rcases List.mem_append.mp hc with h | h
  · exact hq c h
  · exact hr c h

theorem quiet_send {L : ShogiLib} (v : View L) (c : Cmd) (hc : Cmd.isSearch c = false) :
    Quiet v (v.send c) :=
  ⟨[c], rfl, by simpa using hc⟩

theorem quiet_analyze {L : ShogiLib} (v : View L) : Quiet v v.analyze := by
  unfold View.analyze
  cases hE : v.Engine with
  | none => exact Quiet.of_sent_eq rfl
  | some e =>
    dsimp only
    split
    · exact Quiet.trans (quiet_send v Cmd.stop rfl) (Quiet.of_sent_eq rfl)
    · exact Quiet.of_sent_eq rfl

theorem quiet_sendOptions {L : ShogiLib} (options : List (List String)) :
    ∀ v : View L, Quiet v (View.sendOptions options v) := by
  induction options with
  | nil => intro v; exact Quiet.of_sent_eq rfl
  | cons option rest ih =>
    intro v
    unfold View.sendOptions
    split
    · exact Quiet.trans (quiet_send v (Cmd.setOption _ _) rfl) (ih _)
    · exact Quiet.of_sent_eq rfl

theorem quiet_keyV {L : ShogiLib} (v : View L) : Quiet v v.keyV := by
  unfold View.keyV
  cases hE : v.Engine with
  | none =>
    dsimp only
    cases hN : L.NewEngine v.Config.EnginePath with
    | error err => exact Quiet.of_sent_eq rfl
    | ok e =>
      dsimp only
      have h1 : Quiet v
          (View.sendOptions v.Config.EngineOptions
            (View.send { v with Engine := some e, readers := v.readers + 1 } Cmd.usi)) :=
        Quiet.trans (Quiet.trans (Quiet.of_sent_eq rfl) (quiet_send _ Cmd.usi rfl))
          (quiet_sendOptions _ _)
      split
      · exact h1
      · exact Quiet.trans h1
          (Quiet.trans (Quiet.trans (quiet_send _ Cmd.isReady rfl) (Quiet.of_sent_eq rfl))
            (quiet_analyze _))
  | some e =>
    dsimp only
    split
    · exact quiet_analyze v
    · exact Quiet.trans (quiet_send v Cmd.stop rfl) (Quiet.of_sent_eq rfl)
    · exact Quiet.of_sent_eq rfl

theorem focusCurrent_sent {L : ShogiLib} (v : View L) :
    (View.focusCurrent v).sent = v.sent := by
  unfold View.focusCurrent
  split
  · rfl
  · split <;> rfl

theorem quiet_inputCapture {L : ShogiLib} (v : View L) (e : Key) :
    Quiet v (v.inputCapture e).1 := by
  unfold View.inputCapture
  split
  · exact Quiet.of_sent_eq rfl
  · split
    · exact Quiet.of_sent_eq (by unfold View.nextPanel; rw [focusCurrent_sent])
    · exact Quiet.of_sent_eq (by unfold View.prevPanel; rw [focusCurrent_sent])
    · split
      · exact quiet_keyV v
      · exact Quiet.of_sent_eq rfl
    · exact Quiet.of_sent_eq rfl

theorem quiet_UpdateView {L : ShogiLib} (v : View L) : Quiet v v.UpdateView := by
  unfold View.UpdateView
  dsimp only
  split
  · exact Quiet.of_sent_eq rfl
  · split
    · exact Quiet.trans (Quiet.of_sent_eq rfl) (quiet_analyze _)
    · exact Quiet.of_sent_eq rfl

/-! ## The goroutines: lemmas -/

theorem setLoop_guardRead {L : ShogiLib} (σ : Sys L) (i : Nat) (pc : PollPc)
    (h : σ.GuardRead) (hpc : pc.guardRead) : (σ.setLoop i pc).GuardRead := by
  intro q hq
  rcases List.mem_or_eq_of_mem_set hq with hq | hq
  · exact h q hq
  · rw [hq]; exact hpc

theorem pollStep_guardRead {L : ShogiLib} (σ : Sys L) (i : Nat) (h : σ.GuardRead) :
    (σ.pollStep i).GuardRead := by
  unfold Sys.pollStep
  split
  · exact h
  · split
    · exact h
    · exact setLoop_guardRead σ i _ h trivial
  · split
    · rename_i hs
      split
      · exact h
      · exact setLoop_guardRead σ i _ h hs
    · exact setLoop_guardRead σ i _ h trivial
  · rename_i s r hget
    have hs : s = EngineState.Idling := h _ (List.get?_mem hget)
    split
    · rename_i hr
      exact setLoop_guardRead σ i _ h ⟨hs, hr⟩
    · exact setLoop_guardRead σ i _ h trivial
  · rename_i s r sfen hget
    have hsr : s = EngineState.Idling ∧ r = true := h _ (List.get?_mem hget)
    split
    · exact h
    · exact setLoop_guardRead _ i _ h hsr
  · rename_i s r hget
    have hsr : s = EngineState.Idling ∧ r = true := h _ (List.get?_mem hget)
    split
    · exact h
    · exact setLoop_guardRead _ i _ h hsr
  · exact setLoop_guardRead _ i _ h trivial
  · exact h

theorem mainStep_loops {L : ShogiLib} (σ : Sys L) :
    σ.mainStep.loops = σ.loops ∨
      (σ.main = MainPc.startLoop ∧ σ.mainStep.loops = σ.loops ++ [PollPc.waiting]) := by
  unfold Sys.mainStep
  split
  · exact Or.inl rfl
  · split
    · exact Or.inl rfl
    · split <;> exact Or.inl rfl
  · exact Or.inl rfl
  · exact Or.inl rfl
  · split <;> exact Or.inl rfl
  · exact Or.inl rfl
  · split
    · exact Or.inl rfl
    · split <;> exact Or.inl rfl
  · exact Or.inl rfl
  · rename_i hm
    exact Or.inr ⟨hm, rfl⟩

theorem keyStart_loops {L : ShogiLib} (σ : Sys L) (e : Key) :
    (σ.keyStart e).loops = σ.loops := by
  unfold Sys.keyStart
  split
  · rfl
  · split
    · rfl
    · rfl
    · split
      · unfold Sys.keyVStart
        split
        · split <;> rfl
        · split <;> rfl
      · rfl
    · rfl

theorem step_loops_of_not_poll {L : ShogiLib} (σ : Sys L) (ev : Event L)
    (hev : ∀ i, ev ≠ Event.poll i) :
    (σ.step ev).loops = σ.loops ∨
      (ev = Event.main ∧ σ.main = MainPc.startLoop ∧
        (σ.step ev).loops = σ.loops ++ [PollPc.waiting]) := by
  unfold Sys.step
  split
  · exact Or.inl rfl
  · cases ev with
    | key e => dsimp only; split
               · exact Or.inl (keyStart_loops σ e)
               · exact Or.inl rfl
    | positionChanged g => dsimp only; split <;> exact Or.inl rfl
    | info i => dsimp only; split <;> exact Or.inl rfl
    | main =>
      rcases mainStep_loops σ with h | ⟨hm, h⟩
      · exact Or.inl h
      · exact Or.inr ⟨rfl, hm, h⟩
    | poll i => exact absurd rfl (hev i)
    | engineReport e => dsimp only; split <;> exact Or.inl rfl

theorem step_guardRead {L : ShogiLib} (σ : Sys L) (ev : Event L) (h : σ.GuardRead) :
    (σ.step ev).GuardRead := by
  by_cases hev : ∃ i, ev = Event.poll i
  · obtain ⟨i, rfl⟩ := hev
    unfold Sys.step
    split
    · exact h
    · exact pollStep_guardRead σ i h
  · have hev' : ∀ i, ev ≠ Event.poll i := fun i hi => hev ⟨i, hi⟩
    intro pc hpc
    rcases step_loops_of_not_poll σ ev hev' with hl | ⟨_, _, hl⟩
    · rw [hl] at hpc; exact h pc hpc
    · rw [hl] at hpc
      rcases List.mem_append.mp hpc with hp | hp
      · exact h pc hp
      · rw [List.mem_singleton.mp hp]; trivial

theorem run_guardRead {L : ShogiLib} (evs : List (Event L)) :
    ∀ σ : Sys L, σ.GuardRead → (σ.run evs).GuardRead := by
  induction evs with
  | nil => intro σ h; exact h
  | cons ev rest ih =>
    intro σ h
    exact ih (σ.step ev) (step_guardRead σ ev h)

theorem start_guardRead {L : ShogiLib} (v : View L) : (Sys.start v).GuardRead := by
  intro pc hpc
  simp [Sys.start] at hpc

theorem keyStart_sent {L : ShogiLib} (σ : Sys L) (e : Key) :
    (σ.keyStart e).view.sent = σ.view.sent := by
  unfold Sys.keyStart
  split
  · rfl
  · split
    · show (View.nextPanel σ.view).sent = σ.view.sent
      unfold View.nextPanel
      rw [focusCurrent_sent]
    · show (View.prevPanel σ.view).sent = σ.view.sent
      unfold View.prevPanel
      rw [focusCurrent_sent]
    · split
      · unfold Sys.keyVStart
        split
        · split <;> rfl
        · split <;> rfl
      · rfl
    · rfl

theorem mainStep_sent {L : ShogiLib} (σ : Sys L) :
    ∃ cs, σ.mainStep.view.sent = σ.view.sent ++ cs ∧ ∀ c ∈ cs, Cmd.isSearch c = false := by
  unfold Sys.mainStep
  split
  · exact ⟨[], by simp, by simp⟩
  · split
    · exact ⟨[], by simp, by simp⟩
    · split <;> exact ⟨[], by simp, by simp⟩
  · exact ⟨[Cmd.usi], rfl, by simp [Cmd.isSearch]⟩
  · exact ⟨[], by simp, by simp⟩
  · split
    · exact ⟨[Cmd.setOption _ _], rfl, by simp [Cmd.isSearch]⟩
    · exact ⟨[], by simp [Sys.crash], by simp⟩
  · exact ⟨[Cmd.isReady], rfl, by simp [Cmd.isSearch]⟩
  · split
    · exact ⟨[], by simp, by simp⟩
    · split <;> exact ⟨[], by simp, by simp⟩
  · exact ⟨[Cmd.stop], rfl, by simp [Cmd.isSearch]⟩
  · exact ⟨[], by simp, by simp⟩

theorem pollStep_sent {L : ShogiLib} (σ : Sys L) (i : Nat) (h : σ.GuardRead) :
    ∃ cs, (σ.pollStep i).view.sent = σ.view.sent ++ cs ∧
      (cs = [] ∨
        (∃ sfen, σ.loops.get? i =
            some (PollPc.sfenReady EngineState.Idling true sfen) ∧ cs = [Cmd.sfen sfen]) ∨
        (σ.loops.get? i = some (PollPc.sentPosition EngineState.Idling true) ∧
          cs = [Cmd.goInfinite])) := by
  unfold Sys.pollStep
  split
  · exact ⟨[], by simp, Or.inl rfl⟩
  · split <;> exact ⟨[], by simp [Sys.crash, Sys.setLoop], Or.inl rfl⟩
  · split
    · split <;> exact ⟨[], by simp [Sys.crash, Sys.setLoop], Or.inl rfl⟩
    · exact ⟨[], by simp [Sys.setLoop], Or.inl rfl⟩
  · split <;> exact ⟨[], by simp [Sys.setLoop], Or.inl rfl⟩
  · rename_i s r sfen hget
    have hsr : s = EngineState.Idling ∧ r = true := h _ (List.get?_mem hget)
    split
    · exact ⟨[], by simp [Sys.crash], Or.inl rfl⟩
    · refine ⟨[Cmd.sfen sfen], rfl, Or.inr (Or.inl ⟨sfen, ?_, rfl⟩)⟩
      rw [hget, hsr.1, hsr.2]
  · rename_i s r hget
    have hsr : s = EngineState.Idling ∧ r = true := h _ (List.get?_mem hget)
    split
    · exact ⟨[], by simp [Sys.crash], Or.inl rfl⟩
    · refine ⟨[Cmd.goInfinite], rfl, Or.inr (Or.inr ⟨?_, rfl⟩)⟩
      rw [hget, hsr.1, hsr.2]
  · exact ⟨[], by simp [Sys.setLoop, View.logLine], Or.inl rfl⟩
  · exact ⟨[], by simp, Or.inl rfl⟩

theorem step_sent {L : ShogiLib} (σ : Sys L) (ev : Event L) (h : σ.GuardRead) :
    ∃ cs, (σ.step ev).view.sent = σ.view.sent ++ cs ∧
      ((∀ c ∈ cs, Cmd.isSearch c = false) ∨
        (∃ i sfen, ev = Event.poll i ∧
          σ.loops.get? i = some (PollPc.sfenReady EngineState.Idling true sfen) ∧
          cs = [Cmd.sfen sfen]) ∨
        (∃ i, ev = Event.poll i ∧
          σ.loops.get? i = some (PollPc.sentPosition EngineState.Idling true) ∧
          cs = [Cmd.goInfinite])) := by
  have none_added : (σ.step ev).view.sent = σ.view.sent →
      ∃ cs, (σ.step ev).view.sent = σ.view.sent ++ cs ∧
        ((∀ c ∈ cs, Cmd.isSearch c = false) ∨
          (∃ i sfen, ev = Event.poll i ∧
            σ.loops.get? i = some (PollPc.sfenReady EngineState.Idling true sfen) ∧
            cs = [Cmd.sfen sfen]) ∨
          (∃ i, ev = Event.poll i ∧
            σ.loops.get? i = some (PollPc.sentPosition EngineState.Idling true) ∧
            cs = [Cmd.goInfinite])) :=
    fun hs => ⟨[], by simp [hs], Or.inl (by simp)⟩
  by_cases hc : σ.view.crashed = true
  · exact none_added (by unfold Sys.step; rw [if_pos hc])
  · cases ev with
    | key e =>
      apply none_added
      unfold Sys.step
      rw [if_neg hc]
      dsimp only
      split
      · exact keyStart_sent σ e
      · rfl
    | positionChanged g =>
      apply none_added
      unfold Sys.step
      rw [if_neg hc]
      dsimp only
      split <;> rfl
    | info i =>
      apply none_added
      unfold Sys.step
      rw [if_neg hc]
      dsimp only
      split <;> rfl
    | engineReport e =>
      apply none_added
      unfold Sys.step
      rw [if_neg hc]
      dsimp only
      split <;> rfl
    | main =>
      obtain ⟨cs, h1, h2⟩ := mainStep_sent σ
      refine ⟨cs, ?_, Or.inl h2⟩
      unfold Sys.step
      rw [if_neg hc]
      exact h1
    | poll i =>
      obtain ⟨cs, h1, h2⟩ := pollStep_sent σ i h
      refine ⟨cs, ?_, ?_⟩
      · unfold Sys.step
        rw [if_neg hc]
        exact h1
      · rcases h2 with h2 | ⟨sfen, h2, h3⟩ | ⟨h2, h3⟩
        · exact Or.inl (by rw [h2]; simp)
        · exact Or.inr (Or.inl ⟨i, sfen, rfl, h2, h3⟩)
        · exact Or.inr (Or.inr ⟨i, rfl, h2, h3⟩)

theorem pollStep_loops {L : ShogiLib} (σ : Sys L) (j : Nat) :
    (σ.pollStep j).loops = σ.loops ∨ ∃ pc, (σ.pollStep j).loops = σ.loops.set j pc := by
  unfold Sys.pollStep
  split
  · exact Or.inl rfl
  · split
    · exact Or.inl rfl
    · exact Or.inr ⟨_, rfl⟩
  · split
    · split
      · exact Or.inl rfl
      · exact Or.inr ⟨_, rfl⟩
    · exact Or.inr ⟨_, rfl⟩
  · split <;> exact Or.inr ⟨_, rfl⟩
  · split
    · exact Or.inl rfl
    · exact Or.inr ⟨_, rfl⟩
  · split
    · exact Or.inl rfl
    · exact Or.inr ⟨_, rfl⟩
  · exact Or.inr ⟨_, rfl⟩
  · exact Or.inl rfl

theorem step_keeps_other_loops {L : ShogiLib} (σ : Sys L) (ev : Event L) (i : Nat)
    (pc : PollPc) (hev : ev ≠ Event.poll i) (hget : σ.loops.get? i = some pc) :
    (σ.step ev).loops.get? i = some pc := by
  by_cases hp : ∃ j, ev = Event.poll j
  · obtain ⟨j, rfl⟩ := hp
    have hji : j ≠ i := fun h => hev (by rw [h])
    unfold Sys.step
    split
    · exact hget
    · rcases pollStep_loops σ j with hl | ⟨q, hl⟩
      · show (σ.pollStep j).loops.get? i = some pc
        rw [hl]; exact hget
      · show (σ.pollStep j).loops.get? i = some pc
        rw [hl, List.get?_eq_getElem?, List.getElem?_set_ne hji, ← List.get?_eq_getElem?]
        exact hget
  · have hev' : ∀ j, ev ≠ Event.poll j := fun j hj => hp ⟨j, hj⟩
    rcases step_loops_of_not_poll σ ev hev' with hl | ⟨_, _, hl⟩
    · rw [hl]; exact hget
    · rw [hl]
      have hlt : i < σ.loops.length := by
        rcases Nat.lt_or_ge i σ.loops.length with h | h
        · exact h
        · rw [List.get?_eq_none.mpr h] at hget
          exact absurd hget (by simp)
      rw [List.get?_eq_getElem?, List.getElem?_append_left hlt, ← List.get?_eq_getElem?]
      exact hget

theorem step_poll {L : ShogiLib} (σ : Sys L) (i : Nat) (hc : σ.view.crashed = false) :
    σ.step (Event.poll i) = σ.pollStep i := by
  unfold Sys.step
  rw [if_neg (by simp [hc])]

theorem finishMain_done {L : ShogiLib} (n : Nat) (σ : Sys L)
    (h : σ.view.crashed = true ∨ σ.main = MainPc.idle) : Sys.finishMain n σ = σ := by
  cases n with
  | zero => rfl
  | succ k =>
    unfold Sys.finishMain
    rw [if_pos h]

theorem finishMain_step {L : ShogiLib} (n : Nat) (σ : Sys L)
    (hc : σ.view.crashed = false) (hm : σ.main ≠ MainPc.idle) :
    Sys.finishMain (n + 1) σ = Sys.finishMain n σ.mainStep := by
  conv => lhs; unfold Sys.finishMain
  rw [if_neg]
  rintro (h | h)
  · rw [hc] at h; exact absurd h (by simp)
  · exact hm h

theorem mainStep_sendStop {L : ShogiLib} (w : View L) (loops : List PollPc) :
    Sys.mainStep { view := w, main := MainPc.sendStop true, loops := loops } =
      { view := (w.send Cmd.stop).logLine "> stop", main := MainPc.startLoop, loops := loops } :=
  rfl

theorem mainStep_startLoop {L : ShogiLib} (w : View L) (loops : List PollPc) :
    Sys.mainStep { view := w, main := MainPc.startLoop, loops := loops } =
      { view := { w with polls := w.polls + 1 }, main := MainPc.idle,
        loops := loops ++ [PollPc.waiting] } :=
  rfl

theorem mainStep_analyze {L : ShogiLib} (w : View L) (loops : List PollPc) :
    Sys.mainStep { view := w, main := MainPc.analyze, loops := loops } =
      match w.Engine with
      | none => { view := w, main := MainPc.idle, loops := loops }
      | some e =>
        if e.State = EngineState.Thinking then
          { view := w, main := MainPc.sendStop true, loops := loops }
        else { view := w, main := MainPc.startLoop, loops := loops } :=
  rfl

theorem finishMain_analyze {L : ShogiLib} (n : Nat) (w : View L) (loops : List PollPc)
    (hc : w.crashed = false) :
    (Sys.finishMain (n + 3) { view := w, main := MainPc.analyze, loops := loops }).view =
      w.analyze := by
  rw [finishMain_step _ _ hc (by simp), mainStep_analyze]
  unfold View.analyze
  cases hE : w.Engine with
  | none => dsimp only; rw [finishMain_done _ _ (Or.inr rfl)]
  | some e =>
    dsimp only
    by_cases hT : e.State = EngineState.Thinking
    · rw [if_pos hT, if_pos hT]
      rw [finishMain_step _ _ hc (by simp), mainStep_sendStop]
      rw [finishMain_step _ _ (by simp [View.send, View.logLine, hc]) (by simp),
        mainStep_startLoop]
      rw [finishMain_done _ _ (Or.inr rfl)]
    · rw [if_neg hT, if_neg hT]
      rw [finishMain_step _ _ hc (by simp), mainStep_startLoop]
      rw [finishMain_done _ _ (Or.inr rfl)]

/-- The steps of `View.UpdateView`, taken one after the other with no other
goroutine in between, end in what the method gives as a function. -/
theorem finishMain_UpdateView {L : ShogiLib} (v : View L) (g : GameTree L)
    (hc : v.crashed = false) :
    (Sys.finishMain 4 ((Sys.start v).step (Event.positionChanged g))).view =
      View.UpdateView { v with Game := g } := by
  have hstep : (Sys.start v).step (Event.positionChanged g) =
      { view := View.redrawn { v with Game := g }, main := MainPc.updateGuard, loops := [] } := by
    unfold Sys.step
    simp [Sys.start, hc]
  rw [hstep, finishMain_step _ _ (by simp [View.redrawn, hc]) (by simp)]
  unfold Sys.mainStep View.UpdateView
  dsimp only
  cases hE : v.Engine with
  | none =>
    simp only [View.redrawn, hE]
    rw [finishMain_done _ _ (Or.inr rfl)]
  | some e =>
    simp only [View.redrawn, hE]
    by_cases hT : e.State = EngineState.Thinking
    · rw [if_pos hT, if_pos hT]
      exact finishMain_analyze 0 _ _ hc
    · rw [if_neg hT, if_neg hT]
      rw [finishMain_done _ _ (Or.inr rfl)]

theorem sendOptions_crashed_false {L : ShogiLib} (w : View L) (c : Cmd)
    (hc : w.crashed = false) : (w.send c).crashed = false := hc

theorem finishMain_sendOptions {L : ShogiLib} (options : List (List String)) :
    ∀ (w : View L) (loops : List PollPc) (n : Nat), w.crashed = false →
      (Sys.finishMain (options.length + 1 + n)
          { view := w, main := MainPc.sendSetOption options, loops := loops }).view =
        if (View.sendOptions options w).crashed = true then View.sendOptions options w
        else (Sys.finishMain n
          { view := View.sendOptions options w, main := MainPc.sendIsReady,
            loops := loops }).view := by
  induction options with
  | nil =>
    intro w loops n hc
    have hfuel : ([] : List (List String)).length + 1 + n = n + 1 := by simp; omega
    rw [hfuel, finishMain_step _ _ hc (by simp)]
    have hs : View.sendOptions [] w = w := by unfold View.sendOptions; rfl
    rw [hs, if_neg (by simp [hc])]
    rfl
  | cons option rest ih =>
    intro w loops n hc
    have hfuel : (option :: rest).length + 1 + n = (rest.length + 1 + n) + 1 := by
      simp; omega
    rw [hfuel, finishMain_step _ _ hc (by simp)]
    match option with
    | [] =>
      have hs : View.sendOptions ([] :: rest) w = { w with crashed := true } := by
        unfold View.sendOptions; rfl
      rw [hs, if_pos rfl]
      have hm : Sys.mainStep (Sys.mk w (MainPc.sendSetOption ([] :: rest)) loops) =
          Sys.crash (Sys.mk w (MainPc.sendSetOption ([] :: rest)) loops) := rfl
      rw [hm, finishMain_done _ _ (Or.inl rfl)]
      rfl
    | [x] =>
      have hs : View.sendOptions ([x] :: rest) w = { w with crashed := true } := by
        unfold View.sendOptions; rfl
      rw [hs, if_pos rfl]
      have hm : Sys.mainStep (Sys.mk w (MainPc.sendSetOption ([x] :: rest)) loops) =
          Sys.crash (Sys.mk w (MainPc.sendSetOption ([x] :: rest)) loops) := rfl
      rw [hm, finishMain_done _ _ (Or.inl rfl)]
      rfl
    | x :: y :: t =>
      have hs : View.sendOptions ((x :: y :: t) :: rest) w =
          View.sendOptions rest (w.send (Cmd.setOption x y)) := by
        conv => lhs; unfold View.sendOptions
      have hm : Sys.mainStep (Sys.mk w (MainPc.sendSetOption ((x :: y :: t) :: rest)) loops) =
          Sys.mk (w.send (Cmd.setOption x y)) (MainPc.sendSetOption rest) loops := rfl
      rw [hs, hm]
      exact ih _ loops n (sendOptions_crashed_false w _ hc)

/-- The steps of the `v` key, taken one after the other with no other
goroutine in between, end in what the handler gives as a function. -/
theorem finishMain_keyV {L : ShogiLib} (v : View L) (hc : v.crashed = false) :
    (Sys.finishMain (v.Config.EngineOptions.length + 6)
        ((Sys.start v).step (Event.key (Key.Rune 'v')))).view = v.keyV := by
  have hstep : (Sys.start v).step (Event.key (Key.Rune 'v')) = (Sys.start v).keyVStart := by
    unfold Sys.step Sys.keyStart
    simp [Sys.start, hc]
  rw [hstep]
  unfold Sys.keyVStart View.keyV
  simp only [Sys.start]
  cases hE : v.Engine with
  | none =>
    dsimp only
    cases hN : L.NewEngine v.Config.EnginePath with
    | error err =>
      dsimp only
      rw [finishMain_done _ _ (Or.inr rfl)]
    | ok e =>
      dsimp only
      have hfuel : v.Config.EngineOptions.length + 6 =
          (v.Config.EngineOptions.length + 1 + 4) + 1 := by omega
      rw [hfuel, finishMain_step _ _ hc (by simp)]
      have hm : Sys.mainStep
          { view := { v with Engine := some e, readers := v.readers + 1 },
            main := MainPc.sendUSI, loops := ([] : List PollPc) } =
          { view := View.send { v with Engine := some e, readers := v.readers + 1 } Cmd.usi,
            main := MainPc.sendSetOption v.Config.EngineOptions, loops := [] } := rfl
      rw [hm, finishMain_sendOptions v.Config.EngineOptions
        (View.send { v with Engine := some e, readers := v.readers + 1 } Cmd.usi) [] 4 hc]
      by_cases hcr : (View.sendOptions v.Config.EngineOptions
          (View.send { v with Engine := some e, readers := v.readers + 1 } Cmd.usi)).crashed = true
      · rw [if_pos hcr]
        exact (if_pos hcr).symm
      · rw [if_neg hcr]
        refine Eq.trans ?_ (if_neg hcr).symm
        have hcf : (View.sendOptions v.Config.EngineOptions
            (View.send { v with Engine := some e, readers := v.readers + 1 }
              Cmd.usi)).crashed = false := by simpa using hcr
        rw [finishMain_step _ _ hcf (by simp)]
        exact finishMain_analyze 0 _ _ hcf
  | some e =>
    dsimp only
    cases hS : e.State with
    | Idling =>
      dsimp only
      exact finishMain_analyze (v.Config.EngineOptions.length + 3) v [] hc
    | Thinking =>
      dsimp only
      have hfuel : v.Config.EngineOptions.length + 6 =
          (v.Config.EngineOptions.length + 5) + 1 := by omega
      rw [hfuel, finishMain_step _ _ hc (by simp)]
      exact congrArg Sys.view (finishMain_done _ _ (Or.inr rfl))
    | Initialized => dsimp only; rw [finishMain_done _ _ (Or.inr rfl)]
    | WaitingUSIOk => dsimp only; rw [finishMain_done _ _ (Or.inr rfl)]
    | WaitingReadyOk => dsimp only; rw [finishMain_done _ _ (Or.inr rfl)]

/-! ## The goroutines: claims -/

/-- C6: in every execution of the program (keys, the `v` key among them,
position changes with `View.UpdateView`, the steps of `View.analyze` and of
every poll loop it starts, engine reports, analysis lines, interleaved in any
order and at any place), a step that sends the position command (`SendSFEN`)
or the search command (`GoInfinite`) is a step of a poll loop, and that loop
has, since its last tick, read the engine state as `Idling` and `ReadyOk` as
true; every other step adds no such command.  What a loop holds as read is
what it read: at a tick it reads `State`, and after reading `Idling` it reads
`ReadyOk`.  On a tick where the state read is anything else, or `ReadyOk` is
read false, neither command is sent and the loop goes back to waiting for the
next tick; where both reads pass, the loop evaluates the position, sends the
position command and then the search command.  No step of another goroutine
moves a poll loop, and a poll loop comes into being only at the `go func()`
of `View.analyze`, waiting for its first tick. -/
theorem search_commands_only_after_guard_read (L : ShogiLib) (v : View L)
    (evs : List (Event L)) (ev : Event L) :
    (∃ cs, (((Sys.start v).run evs).step ev).view.sent =
        ((Sys.start v).run evs).view.sent ++ cs ∧
      ((∀ c ∈ cs, Cmd.isSearch c = false) ∨
        (∃ i sfen, ev = Event.poll i ∧
          ((Sys.start v).run evs).loops.get? i =
            some (PollPc.sfenReady EngineState.Idling true sfen) ∧
          cs = [Cmd.sfen sfen]) ∨
        (∃ i, ev = Event.poll i ∧
          ((Sys.start v).run evs).loops.get? i =
            some (PollPc.sentPosition EngineState.Idling true) ∧
          cs = [Cmd.goInfinite]))) ∧
    (∀ (σ : Sys L) (i : Nat) (e : Engine), σ.view.crashed = false → σ.view.Engine = some e →
      (σ.loops.get? i = some PollPc.waiting →
        σ.step (Event.poll i) = σ.setLoop i (PollPc.stateRead e.State)) ∧
      (σ.loops.get? i = some (PollPc.stateRead EngineState.Idling) →
        σ.step (Event.poll i) =
          σ.setLoop i (PollPc.readyRead EngineState.Idling e.ReadyOk))) ∧
    (∀ (σ : Sys L) (i : Nat), σ.view.crashed = false →
      (∀ s, s ≠ EngineState.Idling → σ.loops.get? i = some (PollPc.stateRead s) →
        σ.step (Event.poll i) = σ.setLoop i PollPc.waiting ∧
          (σ.step (Event.poll i)).view.sent = σ.view.sent) ∧
      (∀ s, σ.loops.get? i = some (PollPc.readyRead s false) →
        σ.step (Event.poll i) = σ.setLoop i PollPc.waiting ∧
          (σ.step (Event.poll i)).view.sent = σ.view.sent)) ∧
    (∀ (σ : Sys L) (i : Nat) (e : Engine), σ.view.crashed = false → σ.view.Engine = some e →
      (∀ s, σ.loops.get? i = some (PollPc.readyRead s true) →
        σ.step (Event.poll i) =
          σ.setLoop i (PollPc.sfenReady s true (L.SFEN σ.view.Game.Current.Position))) ∧
      (∀ s r sfen, σ.loops.get? i = some (PollPc.sfenReady s r sfen) →
        (σ.step (Event.poll i)).view.sent = σ.view.sent ++ [Cmd.sfen sfen] ∧
          (σ.step (Event.poll i)).loops = σ.loops.set i (PollPc.sentPosition s r)) ∧
      (∀ s r, σ.loops.get? i = some (PollPc.sentPosition s r) →
        (σ.step (Event.poll i)).view.sent = σ.view.sent ++ [Cmd.goInfinite] ∧
          (σ.step (Event.poll i)).loops = σ.loops.set i (PollPc.sentGo s r))) ∧
    (∀ (σ : Sys L) (other : Event L) (i : Nat) (pc : PollPc), other ≠ Event.poll i →
      σ.loops.get? i = some pc → (σ.step other).loops.get? i = some pc) ∧
    (∀ (σ : Sys L) (other : Event L), (∀ i, other ≠ Event.poll i) →
      (σ.step other).loops = σ.loops ∨
        (other = Event.main ∧ σ.main = MainPc.startLoop ∧
          (σ.step other).loops = σ.loops ++ [PollPc.waiting])) := by
  refine ⟨?_, ?_, ?_, ?_, ?_, ?_⟩
  · exact step_sent _ ev (run_guardRead evs _ (start_guardRead v))
  · intro σ i e hc hE
    refine ⟨?_, ?_⟩
    · intro hget
      rw [step_poll σ i hc]
      unfold Sys.pollStep
      simp only [hget, hE]
    · intro hget
      rw [step_poll σ i hc]
      unfold Sys.pollStep
      simp only [hget, hE, if_true]
  · intro σ i hc
    refine ⟨?_, ?_⟩
    · intro s hs hget
      have h : σ.step (Event.poll i) = σ.setLoop i PollPc.waiting := by
        rw [step_poll σ i hc]
        unfold Sys.pollStep
        simp only [hget, hs, if_false]
      exact ⟨h, by rw [h]; rfl⟩
    · intro s hget
      have h : σ.step (Event.poll i) = σ.setLoop i PollPc.waiting := by
        rw [step_poll σ i hc]
        unfold Sys.pollStep
        simp only [hget, Bool.false_eq_true, if_false]
      exact ⟨h, by rw [h]; rfl⟩
  · intro σ i e hc hE
    refine ⟨?_, ?_, ?_⟩
    · intro s hget
      rw [step_poll σ i hc]
      unfold Sys.pollStep
      simp only [hget, if_true]
    · intro s r sfen hget
      rw [step_poll σ i hc]
      unfold Sys.pollStep
      simp only [hget, hE]
      exact ⟨rfl, rfl⟩
    · intro s r hget
      rw [step_poll σ i hc]
      unfold Sys.pollStep
      simp only [hget, hE]
      exact ⟨rfl, rfl⟩
  · intro σ other i pc hev hget
    exact step_keeps_other_loops σ other i pc hev hget
  · intro σ other hev
    exact step_loops_of_not_poll σ other hev

/-- Two poll loops, run on the model: both read `Idling` and `ReadyOk`
before either sends; after the first has sent the position and the search
command the engine is `Thinking`, and the second loop, which read `Idling` on
its tick, still sends its own pair. -/
theorem run_two_poll_loops :
    ((Sys.start (NewView Mini.lib Mini.newGame Mini.config)).run
        (Mini.twoLoopsStarted ++ Mini.bothPassThenFirstSends)).view.Engine =
      some ⟨"engine", EngineState.Thinking, true⟩ ∧
    ((Sys.start (NewView Mini.lib Mini.newGame Mini.config)).run
        (Mini.twoLoopsStarted ++ Mini.bothPassThenFirstSends)).loops =
      [PollPc.sentGo EngineState.Idling true,
       PollPc.sfenReady EngineState.Idling true
         "lnsgkgsnl/1r5b1/ppppppppp/9/9/9/PPPPPPPPP/1B5R1/LNSGKGSNL b - 1"] ∧
    ((Sys.start (NewView Mini.lib Mini.newGame Mini.config)).run
        (Mini.twoLoopsStarted ++ Mini.bothPassThenFirstSends ++
          [Event.poll 1, Event.poll 1])).view.sent =
      [Cmd.usi, Cmd.setOption "Threads" "1", Cmd.setOption "MultiPv" "3", Cmd.isReady,
       Cmd.sfen "lnsgkgsnl/1r5b1/ppppppppp/9/9/9/PPPPPPPPP/1B5R1/LNSGKGSNL b - 1",
       Cmd.goInfinite,
       Cmd.sfen "lnsgkgsnl/1r5b1/ppppppppp/9/9/9/PPPPPPPPP/1B5R1/LNSGKGSNL b - 1",
       Cmd.goInfinite] := by
  decide

/-- C8, evaluated: in the game `7g7f 3c3d 8h2b+` the move that produced the
current position went to 2b, and `readEngineInfo` hands the translator 3d,
the destination stored with `Current.Prev` (the move before the last one);
so the engine line `pv 3a2b` is stored as `☖２二銀(31)`, where the translator
given the square last moved to writes `☖同　銀(31)`.  After the single move
`7g7f` the square handed over is the one stored with the root node, although
the current position is no longer the initial one. -/
theorem readEngineInfo_before_is_of_Prev :
    Mini.gameAfterThree.Current.MoveData.To = ⟨2, 2⟩ ∧
    (Mini.thinkingView Mini.gameAfterThree).readEngineInfoBefore = ⟨3, 4⟩ ∧
    ((Mini.thinkingView Mini.gameAfterThree).readEngineInfo
        Mini.infoRecapture).AnalysisView.Infos =
      [{ USIInfo := Mini.infoRecapture, Pv := ["☖２二銀(31)"] }] ∧
    USIMovesToKIFMoves Mini.lib Mini.infoRecapture.Pv Mini.gameAfterThree.Current.Position
        Mini.gameAfterThree.Current.MoveData.To = (["☖同　銀(31)"], true) ∧
    Mini.gameAfterOne.prevs.length = 1 ∧
    Mini.gameAfterOne.Current.MoveData.To = ⟨7, 6⟩ ∧
    (Mini.thinkingView Mini.gameAfterOne).readEngineInfoBefore = Mini.NullSquare := by
  decide

end Termshogi
